import Mathlib

/-!
Verification development for the IWSDK MCP repository's ingestion pipeline
(scripts/fetch-docs.ts) and telemetry sink (src/telemetry.ts).

The TypeScript code is shallowly embedded: JavaScript objects and Maps with
string keys are association lists in insertion order, JavaScript numbers
arising here (counts divided by counts) are rationals built with mkRat, and
the per-file regex/AST extractions consumed by a pipeline stage appear as the
stage's explicit inputs.  Every definition mirrors the control flow of the
corresponding TypeScript function.
-/

namespace IwsdkMcp

/-! ### Association lists: JavaScript objects with string keys -/

/-- Lookup by key, first binding wins (JavaScript property read). -/
def alookup {β : Type} (m : List (String × β)) (k : String) : Option β :=
  match m with
  | [] => none
  | (a, b) :: rest => if a = k then some b else alookup rest k

/-- The keys of an association list, in order. -/
def akeys {β : Type} (m : List (String × β)) : List String :=
  m.map (fun e => e.1)

/-- JavaScript property write: replace in place when the key exists (objects
keep the original key position), otherwise append. -/
def aset {β : Type} (m : List (String × β)) (k : String) (v : β) :
    List (String × β) :=
  match m with
  | [] => [(k, v)]
  | (a, b) :: rest => if a = k then (a, v) :: rest else (a, b) :: aset rest k v

/-- The counter update pattern obj[k] = (obj[k] || 0) + 1. -/
def aincr (m : List (String × Nat)) (k : String) : List (String × Nat) :=
  match m with
  | [] => [(k, 1)]
  | (a, b) :: rest => if a = k then (a, b + 1) :: rest else (a, b) :: aincr rest k

/-- One step of building a JavaScript Set from a list: keep the first
occurrence of each element, in order. -/
def insertIfNew (acc : List String) (x : String) : List String :=
  if x ∈ acc then acc else acc ++ [x]

/-- The spread of a JavaScript Set built from a list, as in
[...new Set(arr)]: first occurrences in their original order. -/
def dedupFirst (l : List String) : List String :=
  l.foldl insertIfNew []

/-! ### Record types of the ingestion pipeline (fetch-docs.ts) -/

/-- One field of a component schema, as produced by parseComponentSchema. -/
structure ComponentField where
  name : String
  type : String
  default : Option String
  description : Option String
deriving DecidableEq

/-- ComponentDefinition (fetch-docs.ts): one data-schema declaration. -/
structure ComponentDefinition where
  name : String
  package : String
  filePath : String
  description : String
  remarks : Option String
  category : Option String
  jsdocExamples : List String
  fields : List ComponentField
  sourceCode : String
  usageExamples : List String
  requires : List String
  optionalWith : List String
  usedBySystems : List String
  coOccurrences : List (String × ℚ)
  importPath : String
  keywords : List String
deriving DecidableEq

/-- A method summary of a SystemDefinition. -/
structure MethodInfo where
  name : String
  signature : String
  description : String
  returnType : Option String
deriving DecidableEq

/-- A property summary of a SystemDefinition. -/
structure PropertyInfo where
  name : String
  type : String
  description : String
deriving DecidableEq

/-- SystemDefinition (fetch-docs.ts): one behavior-class declaration. -/
structure SystemDefinition where
  name : String
  package : String
  filePath : String
  description : String
  remarks : Option String
  category : Option String
  methods : List MethodInfo
  properties : List PropertyInfo
  sourceCode : String
  queriesComponents : List String
  importPath : String
  keywords : List String
deriving DecidableEq

/-- A member field of an interface TypeDefinition. -/
structure TypeField where
  name : String
  type : String
  optional : Bool
deriving DecidableEq

/-- TypeDefinition (fetch-docs.ts): an interface, alias or enum. -/
structure TypeDefinition where
  name : String
  package : String
  filePath : String
  kind : String
  definition : String
  fields : Option (List TypeField)
deriving DecidableEq

/-- ExampleCode (fetch-docs.ts): one harvested example program. -/
structure ExampleCode where
  title : String
  filePath : String
  description : String
  code : String
  category : String
  tags : List String
  componentsUsed : List String
  systemsUsed : List String
  initPattern : Option String
deriving DecidableEq

/-- ComponentPattern (fetch-docs.ts): a typical composition. -/
structure ComponentPattern where
  name : String
  components : List String
  frequency : ℚ
  category : String
deriving DecidableEq

/-- OrderingConstraint (fetch-docs.ts). -/
structure OrderingConstraint where
  before : String
  after : String
  reason : String
deriving DecidableEq

/-- ValidationRule (fetch-docs.ts). -/
structure ValidationRule where
  id : String
  description : String
  check : String
  message : String
  severity : String
deriving DecidableEq

/-- Relationship (fetch-docs.ts): a typed edge.  The TypeScript field names
from/to are Lean keywords, hence the underscores. -/
structure Relationship where
  from_ : String
  to_ : String
  type : String
deriving DecidableEq

/-! ### analyzeComponentCoOccurrences (fetch-docs.ts lines 1060-1093) -/

/-- The inner loop of lines 1075-1081 for one example: bump the counter of
every listed name other than the component's own. -/
def countsForName (name : String) (m : List (String × Nat)) (l : List String) :
    List (String × Nat) :=
  l.foldl (fun m2 o => if o ≠ name then aincr m2 o else m2) m

/-- The body of the analyzeComponentCoOccurrences loop for one component
record.  Mirrors lines 1066-1092: filter the examples whose componentsUsed
contains the component's name; skip when there are none; count every
occurrence of every other imported name across those examples; store
count / examplesWithComponent.length into the record's coOccurrences; set
optionalWith to the keys whose stored frequency is strictly between 0.5
and 1.0. -/
def analyzeOneComponent (examples : List ExampleCode) (c : ComponentDefinition) :
    ComponentDefinition :=
  let examplesWithComponent :=
    examples.filter (fun ex => decide (c.name ∈ ex.componentsUsed))
  if examplesWithComponent.length = 0 then c
  else
    let counts : List (String × Nat) :=
      examplesWithComponent.foldl
        (fun m ex => countsForName c.name m ex.componentsUsed)
        []
    let newCo : List (String × ℚ) :=
      counts.foldl
        (fun m e => aset m e.1 (mkRat (Int.ofNat e.2) examplesWithComponent.length))
        c.coOccurrences
    let highFrequencyPairs :=
      (newCo.filter (fun e => decide (mkRat 1 2 < e.2 ∧ e.2 < 1))).map
        (fun e => e.1)
    { c with coOccurrences := newCo, optionalWith := highFrequencyPairs }

/-- analyzeComponentCoOccurrences: update every record of the component map
in place. -/
def analyzeComponentCoOccurrences
    (components : List (String × ComponentDefinition))
    (examples : List ExampleCode) : List (String × ComponentDefinition) :=
  components.map (fun e => (e.1, analyzeOneComponent examples e.2))

/-! ### extractComponentRelationships (fetch-docs.ts lines 783-840) -/

/-- The fixed static relationship table (lines 789-794). -/
def knownRelationships (name : String) : Option (List String) :=
  if name = "OneHandGrabbable" then some ["Interactable"]
  else if name = "TwoHandsGrabbable" then some ["Interactable"]
  else if name = "DistanceGrabbable" then some ["Interactable"]
  else if name = "PhysicsBody" then some ["PhysicsShape"]
  else none

/-- What extractComponentRelationships reads from one component's source
file: tagRequires is the split-and-trimmed capture of the first
@requires doc-comment regex match (empty when the regex does not match),
and callPatternNames lists, in AST visit order, the first capture of the
hasComponent/getComponent regex for each call expression whose text
matches.  A missing file (existsSync false, line 802) is the none case of
the Option at the use site. -/
structure RelationshipFileData where
  tagRequires : List String
  callPatternNames : List String
deriving DecidableEq

/-- The requires list computed for one component by the
extractComponentRelationships loop (lines 796-839).  r0 is the record's
requires list on entry (always [] for records built by
extractComponentsFromAST); key is the Object.entries key of the record. -/
def requiresAfterExtraction (key : String) (r0 : List String)
    (fd : Option RelationshipFileData) : List String :=
  let r1 :=
    match knownRelationships key with
    | some l => l
    | none => r0
  match fd with
  | none => r1
  | some d =>
    let r2 := r1 ++ d.tagRequires
    let r3 :=
      d.callPatternNames.foldl
        (fun acc x => if x ≠ key ∧ x ∉ acc then acc ++ [x] else acc) r2
    dedupFirst r3

/-- extractComponentRelationships over the whole component map, with the
per-file extraction results supplied as a function of the entry key. -/
def extractComponentRelationships
    (fileData : String → Option RelationshipFileData)
    (components : List (String × ComponentDefinition)) :
    List (String × ComponentDefinition) :=
  components.map
    (fun e => (e.1, { e.2 with requires := requiresAfterExtraction e.1 e.2.requires (fileData e.1) }))

/-! ### buildSystemComponentRelationships (fetch-docs.ts lines 1095-1110) -/

/-- For each system in order, append the system's name to the usedBySystems
of every component it queries, when that component exists in the map and the
name is not already present. -/
def buildSystemComponentRelationships
    (systems : List (String × SystemDefinition))
    (components : List (String × ComponentDefinition)) :
    List (String × ComponentDefinition) :=
  systems.foldl
    (fun comps se =>
      se.2.queriesComponents.foldl
        (fun comps2 cname =>
          match alookup comps2 cname with
          | none => comps2
          | some c =>
            if se.2.name ∈ c.usedBySystems then comps2
            else aset comps2 cname
              { c with usedBySystems := c.usedBySystems ++ [se.2.name] })
        comps)
    components

/-! ### extractTypicalCompositions (fetch-docs.ts lines 1112-1150) -/

/-- Comparison of strings by code units, as the JavaScript default sort
comparator orders them (identical to code point order on the characters
used in this development). -/
def charListLe (a b : List Char) : Bool :=
  match a, b with
  | [], _ => true
  | _ :: _, [] => false
  | x :: xs, y :: ys => if x = y then charListLe xs ys else decide (x < y)

/-- Insert into an ascending list, after all entries that are ≤ the new
element (stable, as the JavaScript sort is). -/
def insertAscString (x : String) (l : List String) : List String :=
  match l with
  | [] => [x]
  | y :: ys => if charListLe y.data x.data then y :: insertAscString x ys else x :: y :: ys

/-- [...arr].sort() on an array of strings. -/
def sortStringsJs (l : List String) : List String :=
  l.foldl (fun acc x => insertAscString x acc) []

/-- Array.prototype.join, with a separator, on a list of strings. -/
def jsJoin (sep : String) (l : List String) : String :=
  match l with
  | [] => ""
  | [a] => a
  | a :: rest => a ++ sep ++ jsJoin sep rest

/-- key.replace with a global bar-to-plus regex: map every bar character of
the string to a plus. -/
def barToPlus (s : String) : String :=
  String.mk (s.data.map (fun c => if c = '|' then '+' else c))

/-- The accumulator entries of the patterns Map (line 1115). -/
structure PatternAcc where
  components : List String
  count : Nat
  category : String
deriving DecidableEq

/-- pattern.count++ for the entry at the given key. -/
def aincrPattern (m : List (String × PatternAcc)) (key : String) :
    List (String × PatternAcc) :=
  match m with
  | [] => []
  | (a, b) :: rest =>
    if a = key then (a, { b with count := b.count + 1 }) :: rest
    else (a, b) :: aincrPattern rest key

/-- The body of the grouping loop (lines 1117-1133) for one example. -/
def addExampleToPatterns (m : List (String × PatternAcc)) (ex : ExampleCode) :
    List (String × PatternAcc) :=
  if ex.componentsUsed.length < 2 then m
  else
    let sortedComps := sortStringsJs ex.componentsUsed
    let key := jsJoin "|" sortedComps
    match alookup m key with
    | some _ => aincrPattern m key
    | none => m ++ [(key, { components := sortedComps, count := 1, category := ex.category })]

/-- Insert into a list that is descending by frequency, after all entries
with frequency ≥ the new one (the stable JavaScript sort with comparator
b.frequency - a.frequency). -/
def insertDescPattern (p : ComponentPattern) (l : List ComponentPattern) :
    List ComponentPattern :=
  match l with
  | [] => [p]
  | q :: qs => if p.frequency > q.frequency then p :: q :: qs else q :: insertDescPattern p qs

/-- Sort patterns by descending frequency, stably. -/
def sortPatternsDesc (l : List ComponentPattern) : List ComponentPattern :=
  l.foldl (fun acc p => insertDescPattern p acc) []

/-- extractTypicalCompositions (lines 1112-1150): group the examples that
use at least two component names by their sorted componentsUsed list joined
with bars, keep the groups occurring at least twice or in more than a tenth
of all examples, and sort by descending frequency. -/
def extractTypicalCompositions (examples : List ExampleCode) :
    List ComponentPattern :=
  let patterns := examples.foldl addExampleToPatterns []
  let totalExamples : Nat := if examples.length = 0 then 1 else examples.length
  let commonPatterns :=
    (patterns.filter
      (fun e =>
        decide (2 ≤ e.2.count) ||
        decide (mkRat 1 10 < mkRat (Int.ofNat e.2.count) totalExamples))).map
      (fun e =>
        { name := barToPlus e.1
          components := e.2.components
          frequency := mkRat (Int.ofNat e.2.count) totalExamples
          category := e.2.category })
  sortPatternsDesc commonPatterns

/-- The number of examples that the grouping loop files under a given key:
those with at least two componentsUsed entries whose sorted list joins to
the key. -/
def countKey (examples : List ExampleCode) (key : String) : Nat :=
  (examples.filter
    (fun ex =>
      decide (2 ≤ ex.componentsUsed.length) &&
      decide (jsJoin "|" (sortStringsJs ex.componentsUsed) = key))).length

/-- The relation maintained by the grouping loop between the processed
examples and the patterns map: keys are unique, every entry's components
join to its key and its count is the number of processed qualifying
examples filed under that key, and every key with a positive count is
present. -/
def PatternsInv (exs : List ExampleCode) (m : List (String × PatternAcc)) : Prop :=
  (akeys m).Nodup ∧
  (∀ key acc, alookup m key = some acc →
     jsJoin "|" acc.components = key ∧ acc.count = countKey exs key) ∧
  (∀ key, 1 ≤ countKey exs key → (alookup m key).isSome)

/-- The composition mining described by the claim's words, for comparison
with the code: identical to extractTypicalCompositions except that each
example is grouped by its sorted, deduplicated set of imported component
names, and only examples with at least two distinct names participate. -/
def addExampleToPatternsClaimed (m : List (String × PatternAcc)) (ex : ExampleCode) :
    List (String × PatternAcc) :=
  if (dedupFirst ex.componentsUsed).length < 2 then m
  else
    let sortedComps := sortStringsJs (dedupFirst ex.componentsUsed)
    let key := jsJoin "|" sortedComps
    match alookup m key with
    | some _ => aincrPattern m key
    | none => m ++ [(key, { components := sortedComps, count := 1, category := ex.category })]

/-- The claim's composition mining, end to end. -/
def extractTypicalCompositionsClaimed (examples : List ExampleCode) :
    List ComponentPattern :=
  let patterns := examples.foldl addExampleToPatternsClaimed []
  let totalExamples : Nat := if examples.length = 0 then 1 else examples.length
  let commonPatterns :=
    (patterns.filter
      (fun e =>
        decide (2 ≤ e.2.count) ||
        decide (mkRat 1 10 < mkRat (Int.ofNat e.2.count) totalExamples))).map
      (fun e =>
        { name := barToPlus e.1
          components := e.2.components
          frequency := mkRat (Int.ofNat e.2.count) totalExamples
          category := e.2.category })
  sortPatternsDesc commonPatterns

/-! ### generateOrderingConstraints and generateValidationRules
(fetch-docs.ts lines 1152-1223) -/

/-- generateOrderingConstraints: one constraint per (component, required
name) pair, in map order. -/
def generateOrderingConstraints
    (components : List (String × ComponentDefinition)) :
    List OrderingConstraint :=
  components.flatMap
    (fun e =>
      e.2.requires.map
        (fun required =>
          { before := e.1
            after := required
            reason := e.1 ++ " requires " ++ required ++ " to be added first" }))

/-- The error rule emitted for a component with a non-empty requires list
(lines 1181-1189). -/
def mkRequiresRule (name : String) (c : ComponentDefinition) : ValidationRule :=
  { id := "component-" ++ name ++ "-requires"
    description := "Check if " ++ name ++ " has required components"
    check := "entity has " ++ jsJoin ", " c.requires ++ " when using " ++ name
    message := name ++ " requires " ++ jsJoin ", " c.requires ++ " component(s)"
    severity := "error" }

/-- The warning rule emitted for a component with a non-empty usedBySystems
list (lines 1191-1199). -/
def mkSystemRule (name : String) (c : ComponentDefinition) : ValidationRule :=
  { id := "component-" ++ name ++ "-system"
    description := "Check if " ++ name ++ " has required system"
    check := "world has " ++ jsJoin " or " c.usedBySystems ++ " registered when using " ++ name
    message := name ++ " requires " ++ jsJoin " or " c.usedBySystems ++ " to be registered"
    severity := "warning" }

/-- The warning rule emitted for a system with a non-empty queried list
(lines 1202-1212). -/
def mkQueriesRule (name : String) (s : SystemDefinition) : ValidationRule :=
  { id := "system-" ++ name ++ "-components"
    description := "Check if " ++ name ++ " has entities with required components"
    check := "entities have " ++ jsJoin ", " s.queriesComponents ++ " when using " ++ name
    message := name ++ " queries for " ++ jsJoin ", " s.queriesComponents ++ " component(s)"
    severity := "warning" }

/-- The fixed final rule (lines 1214-1220). -/
def entityCreationRule : ValidationRule :=
  { id := "entity-creation"
    description := "Check entity creation method"
    check := "use createTransformEntity() for entities that need position/rotation"
    message := "Use createTransformEntity() instead of createEntity() for 3D positioned entities"
    severity := "warning" }

/-- generateValidationRules (lines 1172-1223). -/
def generateValidationRules
    (components : List (String × ComponentDefinition))
    (systems : List (String × SystemDefinition)) : List ValidationRule :=
  (components.flatMap
    (fun e =>
      (if e.2.requires.length > 0 then [mkRequiresRule e.1 e.2] else []) ++
      (if e.2.usedBySystems.length > 0 then [mkSystemRule e.1 e.2] else []))) ++
  (systems.flatMap
    (fun e =>
      if e.2.queriesComponents.length > 0 then [mkQueriesRule e.1 e.2] else [])) ++
  [entityCreationRule]

/-! ### extractQueriedComponents (fetch-docs.ts lines 730-781) -/

/-- The expression shapes that extractQueriedComponents distinguishes.
Array elements only ever contribute their getText, so they appear as
strings. -/
inductive JsAst where
  | call (fn : String) (args : List JsAst) : JsAst
  | objectLit (props : List JsAst) : JsAst
  | arrayLit (elements : List String) : JsAst
  | propAssign (name : String) (value : JsAst) : JsAst
  | otherNode : JsAst

/-- A type entry of a heritage clause; the code only descends into
expression-with-type-arguments entries. -/
inductive HeritageType where
  | exprWithTypeArgs (e : JsAst) : HeritageType
  | otherType : HeritageType

/-- The guard of line 761: a non-empty element text whose first character
matches the anchored uppercase-letter regex. -/
def requiredElementKept (t : String) : Bool :=
  match t.data with
  | [] => false
  | c :: _ => decide ('A' ≤ c) && decide (c ≤ 'Z')

/-- Lines 758-765: elements of a required array literal that pass the
capitalization guard. -/
def queriedFromRequired (v : JsAst) : List String :=
  match v with
  | JsAst.arrayLit elements => elements.filter requiredElementKept
  | _ => []

/-- Lines 750-768: the contribution of one query definition object. -/
def queriesFromQueryDef (queryDef : JsAst) : List String :=
  match queryDef with
  | JsAst.objectLit qprops =>
    qprops.flatMap
      (fun qp =>
        match qp with
        | JsAst.propAssign pname init =>
          if pname = "required" then queriedFromRequired init else []
        | _ => [])
  | _ => []

/-- Lines 745-772: the contribution of the createSystem queries argument. -/
def queriesFromArg (arg : JsAst) : List String :=
  match arg with
  | JsAst.objectLit props =>
    props.flatMap
      (fun p =>
        match p with
        | JsAst.propAssign _ init => queriesFromQueryDef init
        | _ => [])
  | _ => []

/-- Lines 739-773: only a call to createSystem with at least one argument
contributes, through its first argument. -/
def queriesFromExpr (e : JsAst) : List String :=
  match e with
  | JsAst.call fn (a :: _) => if fn = "createSystem" then queriesFromArg a else []
  | _ => []

/-- extractQueriedComponents: walk the heritage clauses and deduplicate the
collected names. -/
def extractQueriedComponents (heritageClauses : List (List HeritageType)) :
    List String :=
  dedupFirst
    (heritageClauses.flatMap
      (fun clause =>
        clause.flatMap
          (fun t =>
            match t with
            | HeritageType.exprWithTypeArgs e => queriesFromExpr e
            | HeritageType.otherType => [])))

/-- Measurement device for the claim about extractQueriedComponents: every
element text of a required array literal, without the capitalization
filter. -/
def rawFromRequired (v : JsAst) : List String :=
  match v with
  | JsAst.arrayLit elements => elements
  | _ => []

/-- Unfiltered required elements of one query definition. -/
def rawFromQueryDef (queryDef : JsAst) : List String :=
  match queryDef with
  | JsAst.objectLit qprops =>
    qprops.flatMap
      (fun qp =>
        match qp with
        | JsAst.propAssign pname init =>
          if pname = "required" then rawFromRequired init else []
        | _ => [])
  | _ => []

/-- Unfiltered required elements of the createSystem queries argument. -/
def rawFromArg (arg : JsAst) : List String :=
  match arg with
  | JsAst.objectLit props =>
    props.flatMap
      (fun p =>
        match p with
        | JsAst.propAssign _ init => rawFromQueryDef init
        | _ => [])
  | _ => []

/-- Unfiltered required elements of a heritage expression. -/
def rawFromExpr (e : JsAst) : List String :=
  match e with
  | JsAst.call fn (a :: _) => if fn = "createSystem" then rawFromArg a else []
  | _ => []

/-- Every element text of every required array reachable through the
createSystem heritage pattern of a class. -/
def requiredElementsOf (heritageClauses : List (List HeritageType)) :
    List String :=
  heritageClauses.flatMap
    (fun clause =>
      clause.flatMap
        (fun t =>
          match t with
          | HeritageType.exprWithTypeArgs e => rawFromExpr e
          | HeritageType.otherType => []))

/-! ### extractComponentsFromAST (fetch-docs.ts lines 443-497) -/

/-- The recognized doc-comment data of extractJSDoc. -/
structure JsDocInfo where
  description : String
  remarks : Option String
  category : Option String
  examples : List String
deriving DecidableEq

/-- A member of a field definition object literal in a component schema. -/
inductive SchemaInner where
  | propAssign (name : String) (valueText : String) : SchemaInner
  | otherMember : SchemaInner
deriving DecidableEq

/-- The initializer of one schema property. -/
inductive SchemaValue where
  | objectLit (props : List SchemaInner) : SchemaValue
  | nonObject : SchemaValue
deriving DecidableEq

/-- An own property of the schema object literal. -/
inductive SchemaProp where
  | propAssign (name : String) (jsdocDescription : String) (value : SchemaValue) : SchemaProp
  | otherProp : SchemaProp
deriving DecidableEq

/-- The schema argument of a createComponent call. -/
inductive SchemaArg where
  | objectLit (props : List SchemaProp) : SchemaArg
  | nonObject : SchemaArg
deriving DecidableEq

/-- Remove the first occurrence of a character pattern, as the
single-replacement String.replace with a plain-string pattern does. -/
def removeFirstSub (pat : List Char) (s : List Char) : List Char :=
  match s with
  | [] => []
  | c :: rest =>
    if List.isPrefixOf pat (c :: rest) then (c :: rest).drop pat.length
    else c :: removeFirstSub pat rest

/-- propValue.replace of the Types-dot prefix with the empty string
(line 591). -/
def stripTypesDot (s : String) : String :=
  String.mk (removeFirstSub "Types.".data s.data)

/-- The inner loop of parseComponentSchema (lines 585-596): scan the field
definition object for type and default properties. -/
def parseSchemaInner (props : List SchemaInner) : String × Option String :=
  props.foldl
    (fun acc p =>
      match p with
      | SchemaInner.propAssign pname ptext =>
        if pname = "type" then (stripTypesDot ptext, acc.2)
        else if pname = "default" then (acc.1, some ptext)
        else acc
      | SchemaInner.otherMember => acc)
    ("unknown", none)

/-- parseComponentSchema (lines 555-610). -/
def parseComponentSchema (node : SchemaArg) : List ComponentField :=
  match node with
  | SchemaArg.objectLit props =>
    props.flatMap
      (fun p =>
        match p with
        | SchemaProp.propAssign fieldName fieldDescription (SchemaValue.objectLit inner) =>
          let td := parseSchemaInner inner
          [{ name := fieldName
             type := td.1
             default := td.2
             description := if fieldDescription = "" then none else some fieldDescription }]
        | _ => [])
  | SchemaArg.nonObject => []

/-- split with a lookahead-uppercase regex: break before every ASCII
uppercase letter except at the start of the string. -/
def splitUpperAux (cur : List Char) (rest : List Char) : List (List Char) :=
  match rest with
  | [] => [cur.reverse]
  | c :: cs =>
    if (decide ('A' ≤ c) && decide (c ≤ 'Z')) && !cur.isEmpty then
      cur.reverse :: splitUpperAux [c] cs
    else splitUpperAux (c :: cur) cs

/-- \w of the JavaScript word-run regex. -/
def isWordChar (c : Char) : Bool :=
  (decide ('a' ≤ c) && decide (c ≤ 'z')) ||
  (decide ('A' ≤ c) && decide (c ≤ 'Z')) ||
  (decide ('0' ≤ c) && decide (c ≤ '9')) || c = '_'

/-- The maximal word-character runs of a character list; the matches of the
bounded word regex are exactly the runs of length at least four. -/
def wordRunsAux (cur : List Char) (rest : List Char) : List (List Char) :=
  match rest with
  | [] => if cur.isEmpty then [] else [cur.reverse]
  | c :: cs =>
    if isWordChar c then wordRunsAux (c :: cur) cs
    else if cur.isEmpty then wordRunsAux [] cs
    else cur.reverse :: wordRunsAux [] cs

/-- ASCII lowercase of a string (the inputs this pipeline lowercases are
ASCII identifiers and doc text). -/
def asciiLower (s : String) : String :=
  String.mk (s.data.map (fun c =>
    if decide ('A' ≤ c) && decide (c ≤ 'Z') then Char.ofNat (c.toNat + 32) else c))

/-- generateKeywords (lines 537-553). -/
def generateKeywords (componentName : String) (jsdoc : JsDocInfo) : List String :=
  let nameWords := (splitUpperAux [] componentName.data).map (fun w => asciiLower (String.mk w))
  let descWords :=
    if jsdoc.description = "" then []
    else
      (((wordRunsAux [] (asciiLower jsdoc.description).data).filter
        (fun r => decide (4 ≤ r.length))).map (fun r => String.mk r)).take 5
  let catWords :=
    match jsdoc.category with
    | some cat => if cat = "" then [] else [asciiLower cat]
    | none => []
  dedupFirst (nameWords ++ descWords ++ catWords)

/-- The global quote-stripping replace of lines 460 and 467. -/
def stripQuotes (s : String) : String :=
  String.mk (s.data.filter (fun c => !(c = '"' || c = Char.ofNat 39)))

/-- A single-quote string for building importPath texts. -/
def singleQuote : String :=
  String.mk [Char.ofNat 39]

/-- An argument of a createComponent call: its getText and, for use as the
schema argument, its object-literal shape. -/
structure CompArg where
  text : String
  schema : SchemaArg
deriving DecidableEq

mutual
/-- A syntax node as seen by the extractComponentsFromAST visitor: either a
variable statement (with its declarator list and attached doc comment) or
any other node, whose forEachChild children the visitor recurses into. -/
inductive CompNode where
  | variableStatement (decls : List CompDecl) (jsdoc : JsDocInfo) : CompNode
  | otherNode (children : List CompNode) : CompNode
/-- One variable declarator: its getText and its optional initializer. -/
inductive CompDecl where
  | decl (sourceText : String) (init : Option CompInit) : CompDecl
/-- A declarator initializer: a call expression (with callee text and
arguments) or any other expression; children are the forEachChild-reachable
subnodes either way. -/
inductive CompInit where
  | callExpr (funcName : String) (args : List CompArg) (children : List CompNode) : CompInit
  | otherInit (children : List CompNode) : CompInit
end

/-- Lines 453-488: the record contributed directly by one variable
statement.  Only declarations[0] is consulted. -/
def extractComponentFromStatement (packageName filePath : String)
    (decls : List CompDecl) (jsdoc : JsDocInfo) :
    Option (String × ComponentDefinition) :=
  match decls.head? with
  | none => none
  | some (CompDecl.decl srcText initOpt) =>
    match initOpt with
    | some (CompInit.callExpr funcName args _) =>
      match args with
      | a0 :: a1 :: rest =>
        if funcName = "createComponent" then
          let componentName := stripQuotes a0.text
          some (componentName,
            { name := componentName
              package := packageName
              filePath := filePath
              description :=
                match rest.head? with
                | some a2 => stripQuotes a2.text
                | none => jsdoc.description
              remarks := jsdoc.remarks
              category := jsdoc.category
              jsdocExamples := jsdoc.examples
              fields := parseComponentSchema a1.schema
              sourceCode := srcText
              usageExamples := []
              requires := []
              optionalWith := []
              usedBySystems := []
              coOccurrences := []
              importPath :=
                "import \x7b " ++ componentName ++ " \x7d from " ++
                  singleQuote ++ packageName ++ singleQuote ++ ";"
              keywords := generateKeywords componentName jsdoc })
        else none
      | _ => none
    | _ => none

mutual
/-- The visit function of extractComponentsFromAST: record the component of
a variable statement (if any), then recurse into the node's children. -/
def visitCompNode (pkg fp : String) (acc : List (String × ComponentDefinition)) :
    CompNode → List (String × ComponentDefinition)
  | CompNode.variableStatement decls jsdoc =>
    let acc2 :=
      match extractComponentFromStatement pkg fp decls jsdoc with
      | some kv => aset acc kv.1 kv.2
      | none => acc
    visitCompDecls pkg fp acc2 decls
  | CompNode.otherNode children => visitCompNodes pkg fp acc children

/-- Visit a list of sibling nodes left to right. -/
def visitCompNodes (pkg fp : String) (acc : List (String × ComponentDefinition)) :
    List CompNode → List (String × ComponentDefinition)
  | [] => acc
  | n :: rest => visitCompNodes pkg fp (visitCompNode pkg fp acc n) rest

/-- Recurse into the declarators of a variable statement (their initializer
subtrees are forEachChild children of the statement). -/
def visitCompDecls (pkg fp : String) (acc : List (String × ComponentDefinition)) :
    List CompDecl → List (String × ComponentDefinition)
  | [] => acc
  | CompDecl.decl _ none :: rest => visitCompDecls pkg fp acc rest
  | CompDecl.decl _ (some i) :: rest =>
    visitCompDecls pkg fp (visitCompInit pkg fp acc i) rest

/-- Recurse into the subnodes of an initializer. -/
def visitCompInit (pkg fp : String) (acc : List (String × ComponentDefinition)) :
    CompInit → List (String × ComponentDefinition)
  | CompInit.callExpr _ _ children => visitCompNodes pkg fp acc children
  | CompInit.otherInit children => visitCompNodes pkg fp acc children
end

/-- extractComponentsFromAST: visit the source file's tree with an empty
accumulator. -/
def extractComponentsFromAST (pkg fp : String) (sourceFile : CompNode) :
    List (String × ComponentDefinition) :=
  visitCompNode pkg fp [] sourceFile

mutual
/-- Forget the call shape of the direct initializer of every declarator
other than the first one, everywhere in a tree, keeping the initializer's
subnodes.  If the visitor ever consulted those initializers, this
transformation would change its output. -/
def scrubNode : CompNode → CompNode
  | CompNode.variableStatement decls jsdoc =>
    CompNode.variableStatement
      (match decls with
       | [] => []
       | d :: rest => scrubDeclKeep d :: scrubDropDecls rest)
      jsdoc
  | CompNode.otherNode children => CompNode.otherNode (scrubNodes children)

/-- Scrub a list of sibling nodes. -/
def scrubNodes : List CompNode → List CompNode
  | [] => []
  | n :: ns => scrubNode n :: scrubNodes ns

/-- Scrub inside a first declarator, preserving its own call shape. -/
def scrubDeclKeep : CompDecl → CompDecl
  | CompDecl.decl s none => CompDecl.decl s none
  | CompDecl.decl s (some i) => CompDecl.decl s (some (scrubInitKeep i))

/-- Scrub inside an initializer, preserving its call shape. -/
def scrubInitKeep : CompInit → CompInit
  | CompInit.callExpr f a ch => CompInit.callExpr f a (scrubNodes ch)
  | CompInit.otherInit ch => CompInit.otherInit (scrubNodes ch)

/-- Scrub a list of non-first declarators, forgetting each call shape. -/
def scrubDropDecls : List CompDecl → List CompDecl
  | [] => []
  | CompDecl.decl s none :: rest => CompDecl.decl s none :: scrubDropDecls rest
  | CompDecl.decl s (some i) :: rest =>
    CompDecl.decl s (some (CompInit.otherInit (scrubInitChildren i))) :: scrubDropDecls rest

/-- The scrubbed subnodes of an initializer. -/
def scrubInitChildren : CompInit → List CompNode
  | CompInit.callExpr _ _ ch => scrubNodes ch
  | CompInit.otherInit ch => scrubNodes ch
end

/-! ### extractImports (fetch-docs.ts lines 1012-1030) -/

/-- The ASCII whitespace class of the regex (the sources scanned here
contain no exotic Unicode spaces). -/
def isJsSpace (c : Char) : Bool :=
  c = ' ' || c = '\t' || c = '\n' || c = '\r' || c = '\x0b' || c = '\x0c'

/-- Either quote character accepted by the import regex. -/
def isQuote (c : Char) : Bool :=
  c = '"' || c = Char.ofNat 39

/-- Consume an exact literal. -/
def dropLiteral (pat : List Char) (s : List Char) : Option (List Char) :=
  match pat, s with
  | [], rest => some rest
  | _ :: _, [] => none
  | p :: ps, c :: cs => if p = c then dropLiteral ps cs else none

/-- Consume one or more whitespace characters (the maximal run, which is
what the backtracking regex accepts here since every continuation after a
whitespace class starts with a non-whitespace character). -/
def dropSpaces1 (s : List Char) : Option (List Char) :=
  match s with
  | c :: cs => if isJsSpace c then some (cs.dropWhile isJsSpace) else none
  | [] => none

/-- Try the import regex at one position: import, whitespace, a braced
non-empty capture, whitespace, from, whitespace, a quote, the package-scope
prefix, a non-empty module path, a quote.  Returns the capture and the
remaining input. -/
def matchImportAt (s : List Char) : Option (List Char × List Char) :=
  (dropLiteral "import".data s).bind fun s1 =>
  (dropSpaces1 s1).bind fun s2 =>
  match s2 with
  | c :: cs =>
    if c = '{' then
      let cap := cs.takeWhile (fun d => decide (d ≠ '}'))
      match cs.dropWhile (fun d => decide (d ≠ '}')) with
      | c2 :: s3 =>
        if c2 = '}' ∧ ¬ cap.isEmpty then
          (dropSpaces1 s3).bind fun s4 =>
          (dropLiteral "from".data s4).bind fun s5 =>
          (dropSpaces1 s5).bind fun s6 =>
          match s6 with
          | q :: s7 =>
            if isQuote q then
              (dropLiteral "@iwsdk/".data s7).bind fun s8 =>
              let body := s8.takeWhile (fun d => !isQuote d)
              match s8.dropWhile (fun d => !isQuote d) with
              | q2 :: s9 => if isQuote q2 ∧ ¬ body.isEmpty then some (cap, s9) else none
              | [] => none
            else none
          | [] => none
        else none
      | [] => none
    else none
  | [] => none

/-- The exec loop of the global regex: scan left to right, resuming after
each match.  The fuel is the scanned length, which bounds the number of
steps since every step consumes at least one character. -/
def scanImports (fuel : Nat) (s : List Char) : List (List Char) :=
  match fuel, s with
  | 0, _ => []
  | _, [] => []
  | fuel' + 1, c :: cs =>
    match matchImportAt (c :: cs) with
    | some capRest => capRest.1 :: scanImports fuel' capRest.2
    | none => scanImports fuel' cs

/-- String.prototype.trim for the whitespace that occurs here. -/
def jsTrim (s : String) : String :=
  String.mk (((s.data.dropWhile isJsSpace).reverse.dropWhile isJsSpace).reverse)

/-- String.prototype.split on a comma. -/
def splitCommaAux (cur : List Char) (rest : List Char) : List (List Char) :=
  match rest with
  | [] => [cur.reverse]
  | c :: cs => if c = ',' then cur.reverse :: splitCommaAux [] cs else splitCommaAux (c :: cur) cs

/-- ASCII uppercase of a character (toUpperCase on the identifiers that
occur here). -/
def asciiToUpper (c : Char) : Char :=
  if decide ('a' ≤ c) && decide (c ≤ 'z') then Char.ofNat (c.toNat - 32) else c

/-- item[0] compared with its own uppercase, the capitalization test of
line 1023: true for uppercase letters and for characters without case. -/
def firstCharIsUpperJs (s : String) : Bool :=
  match s.data with
  | [] => false
  | c :: _ => c = asciiToUpper c

/-- String.prototype.endsWith. -/
def endsWithStr (s suffix : String) : Bool :=
  List.isSuffixOf suffix.data s.data

/-- The two modes of extractImports. -/
inductive ImportKind where
  | components : ImportKind
  | systems : ImportKind
deriving DecidableEq

/-- extractImports (lines 1012-1030): collect each match's items, trimmed
and non-empty, then keep systems (suffix test) or components (no suffix,
capitalized first character). -/
def extractImports (code : String) (kind : ImportKind) : List String :=
  (scanImports code.data.length code.data).flatMap
    (fun cap =>
      let items :=
        ((splitCommaAux [] cap).map (fun cl => jsTrim (String.mk cl))).filter
          (fun s => decide (0 < s.length))
      items.filter
        (fun item =>
          match kind with
          | ImportKind.systems => endsWithStr item "System"
          | ImportKind.components =>
            !endsWithStr item "System" && decide (0 < item.length) && firstCharIsUpperJs item))

/-! ### logToolCall (src/telemetry.ts lines 17-52) -/

/-- A parameter value: a string (subject to truncation) or any other
JavaScript value, carried opaquely. -/
inductive JsParamValue where
  | str (s : String) : JsParamValue
  | other (text : String) : JsParamValue
deriving DecidableEq

/-- The truncation marker appended at line 45. -/
def truncatedSuffix : String := "... (truncated)"

/-- sanitizeParams (lines 39-52): truncate every string value longer than
500 characters to its first 500 characters plus the marker. -/
def sanitizeParams (params : List (String × JsParamValue)) :
    List (String × JsParamValue) :=
  params.map
    (fun e =>
      match e.2 with
      | JsParamValue.str s =>
        if 500 < s.length then
          (e.1, JsParamValue.str (String.mk (s.data.take 500) ++ truncatedSuffix))
        else e
      | JsParamValue.other _ => e)

/-- The outcomes of the file-system operations logToolCall performs:
whether the directory already exists, and the results of the conditional
mkdir and of the append. -/
structure TelemetrySink where
  dirExists : Bool
  mkdirResult : Except String Unit
  appendResult : Except String Unit

/-- logToolCall (lines 17-37): under a catch-all, optionally create the
directory, build the event from the clock reading and the sanitized
parameters, and append one JSON line.  The first component is what the
caller observes (always success); the second is the list of appended
lines. -/
def logToolCall (encodeEvent : String → String → List (String × JsParamValue) → String)
    (sink : TelemetrySink) (toolName : String)
    (params : List (String × JsParamValue)) (timestamp : String) :
    Except String Unit × List String :=
  match (if sink.dirExists then Except.ok () else sink.mkdirResult : Except String Unit) with
  | Except.error _ => (Except.ok (), [])
  | Except.ok _ =>
    match sink.appendResult with
    | Except.error _ => (Except.ok (), [])
    | Except.ok _ =>
      (Except.ok (), [encodeEvent timestamp toolName (sanitizeParams params) ++ "\n"])

/-! ### generateCache (fetch-docs.ts lines 1938-2113) -/

/-- The JSON serializations used by the materializer, abstracted: each is an
arbitrary but fixed pure function of the data it writes.  str is the
serialization of one JSON string (used for the metadata fields); the
partitions whose content is constant appear as fixed strings. -/
structure JsonEnc where
  str : String → String
  componentsFile : List (String × ComponentDefinition) → String
  systemsFile : List (String × SystemDefinition) → String
  typesFile : List (String × TypeDefinition) → String
  examplesFile : List ExampleCode → String
  relationshipsFile : List Relationship → List Relationship → List ComponentPattern →
    List OrderingConstraint → List ValidationRule → String
  commonMistakesFile : String
  exportsFile : List String → List String → List String → List String → String
  bestPracticesFile : String
  setupGuidesFile : String
  assetGuidesFile : String
  troubleshootingFile : String

/-- Everything generateCache derives from the SDK checkout before the
enrichment stages: the parse results of the four parse passes, the
relationship extraction data of each component's source file, the package
version, and the guide files copied verbatim.  All of it is a pure function
of the input file tree. -/
structure ParsedInput where
  components : List (String × ComponentDefinition)
  systems : List (String × SystemDefinition)
  types : List (String × TypeDefinition)
  examples : List ExampleCode
  relationshipFiles : String → Option RelationshipFileData
  version : String
  guideFiles : List (String × String)

/-- The metadata partition text before the ingestDate value. -/
def metadataPrefix : String := "\x7b\n  \"ingestDate\": "

/-- The metadata partition text after the ingestDate value. -/
def metadataSuffix (enc : JsonEnc) (version : String) : String :=
  ",\n  \"iwsdkVersion\": " ++ enc.str version ++
  ",\n  \"repository\": \"meta-quest/immersive-web-sdk\",\n  \"commit\": \"local\"\n\x7d"

/-- The metadata partition (lines 1984-1992): the only output that mentions
the clock reading. -/
def metadataJson (enc : JsonEnc) (version now : String) : String :=
  metadataPrefix ++ enc.str now ++ metadataSuffix enc version

/-- generateCache as a function of the parsed input and the clock reading:
run the enrichment stages, derive the edge lists, constraints and rules,
and emit every output file as a (path, content) pair in write order. -/
def generateCacheOutputs (enc : JsonEnc) (p : ParsedInput) (now : String) :
    List (String × String) :=
  let components1 := extractComponentRelationships p.relationshipFiles p.components
  let components2 := buildSystemComponentRelationships p.systems components1
  let components3 := analyzeComponentCoOccurrences components2 p.examples
  let typicalCompositions := extractTypicalCompositions p.examples
  let componentRequires : List Relationship :=
    components3.flatMap
      (fun e => e.2.requires.map (fun r => { from_ := e.2.name, to_ := r, type := "REQUIRES" }))
  let systemQueries : List Relationship :=
    p.systems.flatMap
      (fun e => e.2.queriesComponents.map (fun cn => { from_ := e.2.name, to_ := cn, type := "QUERIES" }))
  let orderingConstraints := generateOrderingConstraints components3
  let validationRules := generateValidationRules components3 p.systems
  [("metadata.json", metadataJson enc p.version now),
   ("components.json", enc.componentsFile components3),
   ("systems.json", enc.systemsFile p.systems),
   ("types.json", enc.typesFile p.types),
   ("examples.json", enc.examplesFile p.examples),
   ("relationships.json",
     enc.relationshipsFile componentRequires systemQueries typicalCompositions
       orderingConstraints validationRules),
   ("common-mistakes.json", enc.commonMistakesFile),
   ("exports.json",
     enc.exportsFile (akeys p.systems)
       ((p.types.filter (fun t => decide (t.2.package = "@iwsdk/core"))).map (fun t => t.1))
       (akeys components3) (akeys p.systems)),
   ("best-practices.json", enc.bestPracticesFile),
   ("setup-guides.json", enc.setupGuidesFile),
   ("asset-guides.json", enc.assetGuidesFile),
   ("troubleshooting.json", enc.troubleshootingFile)] ++
  p.guideFiles.map (fun g => ("docs/guides/" ++ g.1, g.2))

/-! ### Statement-level definitions for the claims -/

/-- Lookup in a counter map, zero when absent. -/
def lookupNat (m : List (String × Nat)) (k : String) : Nat :=
  (alookup m k).getD 0

/-- The examples whose componentsUsed list contains the given name. -/
def examplesUsing (examples : List ExampleCode) (n : String) : List ExampleCode :=
  examples.filter (fun ex => decide (n ∈ ex.componentsUsed))

/-- The examples whose componentsUsed list contains both names. -/
def examplesUsingBoth (examples : List ExampleCode) (n x : String) :
    List ExampleCode :=
  examples.filter
    (fun ex => decide (n ∈ ex.componentsUsed) && decide (x ∈ ex.componentsUsed))

/-! ### Concrete fixtures used by the claim instances -/

/-- An empty doc comment. -/
def emptyJsDoc : JsDocInfo :=
  { description := "", remarks := none, category := none, examples := [] }

/-- A freshly extracted component record with a given name, as
extractComponentsFromAST initializes one. -/
def mkBareComponent (n : String) : ComponentDefinition :=
  { name := n
    package := "@iwsdk/core"
    filePath := "packages/core/src/" ++ n ++ ".ts"
    description := ""
    remarks := none
    category := none
    jsdocExamples := []
    fields := []
    sourceCode := ""
    usageExamples := []
    requires := []
    optionalWith := []
    usedBySystems := []
    coOccurrences := []
    importPath := ""
    keywords := [] }

/-- A harvested example whose entry file has the given code, with the lists
of imported names computed by extractImports as parseExamples computes
them. -/
def mkExampleFromCode (code : String) : ExampleCode :=
  { title := "Example"
    filePath := "examples/example/src/index.ts"
    description := "Example: Example"
    code := code
    category := "setup"
    tags := []
    componentsUsed := extractImports code ImportKind.components
    systemsUsed := extractImports code ImportKind.systems
    initPattern := none }

/-- An entry file that imports B twice across two import statements (once
directly and once next to A), as the text-level regex harvester sees it. -/
def dupImportCode : String :=
  "import \x7b B \x7d from \"@iwsdk/core\";\nimport \x7b A, B \x7d from \"@iwsdk/physics\";"

/-- An entry file whose single import statement lists B twice. -/
def doubleBCode : String :=
  "import \x7b B, B \x7d from \"@iwsdk/core\";"

/-- An entry file importing exactly A and B. -/
def abImportCode : String :=
  "import \x7b A, B \x7d from \"@iwsdk/core\";"

/-- Two example folders whose entry files both import exactly A and B. -/
def c4Scenario : List ExampleCode :=
  [mkExampleFromCode abImportCode, mkExampleFromCode abImportCode]

/-- An entry file importing both physics components. -/
def pbPsCode : String :=
  "import \x7b PhysicsBody, PhysicsShape \x7d from \"@iwsdk/core\";"

/-- An entry file importing only PhysicsBody. -/
def pbOnlyCode : String :=
  "import \x7b PhysicsBody \x7d from \"@iwsdk/core\";"

/-- The four examples of the 3-out-of-4 co-occurrence scenario. -/
def pbScenarioExamples : List ExampleCode :=
  [mkExampleFromCode pbPsCode, mkExampleFromCode pbPsCode,
   mkExampleFromCode pbPsCode, mkExampleFromCode pbOnlyCode]

/-- The heritage clauses of a system class extending a createSystem call
whose main query requires the identifiers A and b. -/
def fooSystemHeritage : List (List HeritageType) :=
  [[HeritageType.exprWithTypeArgs
    (JsAst.call "createSystem"
      [JsAst.objectLit
        [JsAst.propAssign "main"
          (JsAst.objectLit [JsAst.propAssign "required" (JsAst.arrayLit ["A", "b"])])]])]]

/-- A component record with a non-empty requires list, as the pipeline
produces for PhysicsBody. -/
def physicsBodyRecord : ComponentDefinition :=
  { mkBareComponent "PhysicsBody" with requires := ["PhysicsShape"] }

/-- A constant serialization, for instantiating the materializer theorem. -/
def constEnc : JsonEnc :=
  { str := fun s => "\"" ++ s ++ "\""
    componentsFile := fun _ => "components"
    systemsFile := fun _ => "systems"
    typesFile := fun _ => "types"
    examplesFile := fun _ => "examples"
    relationshipsFile := fun _ _ _ _ _ => "relationships"
    commonMistakesFile := "mistakes"
    exportsFile := fun _ _ _ _ => "exports"
    bestPracticesFile := "best"
    setupGuidesFile := "setup"
    assetGuidesFile := "asset"
    troubleshootingFile := "trouble" }

/-- A parse result of an empty checkout. -/
def emptyParsed : ParsedInput :=
  { components := []
    systems := []
    types := []
    examples := []
    relationshipFiles := fun _ => none
    version := "1.0.0"
    guideFiles := [] }

/-- A 501-character parameter value, for the truncation witness. -/
def longString : String :=
  String.mk (List.replicate 501 'a')

/-- A two-declarator variable statement whose second declarator initializer
is a qualifying createComponent call. -/
def twoDeclStatement : CompNode :=
  CompNode.variableStatement
    [CompDecl.decl "x = foo()" (some (CompInit.callExpr "foo" [] [])),
     CompDecl.decl "y = createComponent(\"A\", \x7b\x7d)"
       (some (CompInit.callExpr "createComponent"
         [{ text := "\"A\"", schema := SchemaArg.nonObject },
          { text := "\x7b\x7d", schema := SchemaArg.objectLit [] }] []))]
    emptyJsDoc

/-! ## Lemmas about the JavaScript-object model -/

theorem akeys_cons {β : Type} (e : String × β) (m : List (String × β)) :
    akeys (e :: m) = e.1 :: akeys m := rfl

theorem mem_akeys_of_mem {β : Type} {m : List (String × β)} {k : String} {v : β}
    (h : (k, v) ∈ m) : k ∈ akeys m :=
  List.mem_map_of_mem (fun e => e.1) h

theorem alookup_eq_none {β : Type} {m : List (String × β)} {k : String} :
    alookup m k = none ↔ k ∉ akeys m := by
  induction m with
  | nil => simp [alookup, akeys]
  | cons e rest ih =>
    obtain ⟨a, b⟩ := e
    by_cases h : a = k
    · subst h
      simp [alookup, akeys]
    · simp [alookup, akeys, h, ih, Ne.symm h]

theorem alookup_mem {β : Type} {m : List (String × β)} {k : String} {v : β}
    (h : alookup m k = some v) : (k, v) ∈ m := by
  induction m with
  | nil => simp [alookup] at h
  | cons e rest ih =>
    obtain ⟨a, b⟩ := e
    by_cases ha : a = k
    · subst ha
      simp [alookup] at h
      simp [h]
    · simp [alookup, ha] at h
      simp [ih h]

theorem mem_alookup {β : Type} {m : List (String × β)}
    (hn : (akeys m).Nodup) {k : String} {v : β} (h : (k, v) ∈ m) :
    alookup m k = some v := by
  induction m with
  | nil => simp at h
  | cons e rest ih =>
    obtain ⟨a, b⟩ := e
    rw [akeys_cons, List.nodup_cons] at hn
    rcases List.mem_cons.mp h with h1 | h2
    · injection h1 with hk hv
      subst hk
      subst hv
      simp [alookup]
    · have hak : ¬ (a = k) := by
        intro hak
        apply hn.1
        rw [hak]
        exact mem_akeys_of_mem h2
      simp only [alookup, if_neg hak]
      exact ih hn.2 h2

theorem akeys_aset {β : Type} (m : List (String × β)) (k : String) (v : β) :
    akeys (aset m k v) = if k ∈ akeys m then akeys m else akeys m ++ [k] := by
  induction m with
  | nil => simp [aset, akeys]
  | cons e rest ih =>
    obtain ⟨a, b⟩ := e
    by_cases h : a = k
    · subst h
      simp [aset, akeys]
    · rw [show aset ((a, b) :: rest) k v = (a, b) :: aset rest k v from by
        simp [aset, h]]
      rw [akeys_cons, akeys_cons, ih]
      by_cases hm : k ∈ akeys rest
      · rw [if_pos hm, if_pos (by simp [hm])]
      · rw [if_neg hm, if_neg (by simp [hm, Ne.symm h]), List.cons_append]

theorem akeys_aset_nodup {β : Type} {m : List (String × β)}
    (hn : (akeys m).Nodup) (k : String) (v : β) :
    (akeys (aset m k v)).Nodup := by
  rw [akeys_aset]
  by_cases h : k ∈ akeys m
  · simpa [h] using hn
  · simp only [h, if_false]
    simp [List.nodup_append, hn, h]

theorem alookup_aset_self {β : Type} (m : List (String × β)) (k : String) (v : β) :
    alookup (aset m k v) k = some v := by
  induction m with
  | nil => simp [aset, alookup]
  | cons e rest ih =>
    obtain ⟨a, b⟩ := e
    by_cases h : a = k
    · subst h
      simp [aset, alookup]
    · simp [aset, alookup, h, ih]

theorem alookup_aset_ne {β : Type} (m : List (String × β)) {k j : String} (v : β)
    (h : j ≠ k) : alookup (aset m k v) j = alookup m j := by
  induction m with
  | nil => simp [aset, alookup, Ne.symm h]
  | cons e rest ih =>
    obtain ⟨a, b⟩ := e
    by_cases ha : a = k
    · simp only [aset, if_pos ha]
      have haj : ¬ (a = j) := by
        rw [ha]
        exact Ne.symm h
      simp [alookup, haj]
    · by_cases haj : a = j
      · simp [aset, alookup, ha, haj, h]
      · simp [aset, alookup, ha, haj, ih]

theorem alookup_aincr_self (m : List (String × Nat)) (k : String) :
    alookup (aincr m k) k = some (lookupNat m k + 1) := by
  induction m with
  | nil => simp [aincr, alookup, lookupNat]
  | cons e rest ih =>
    obtain ⟨a, b⟩ := e
    by_cases h : a = k
    · subst h
      simp [aincr, alookup, lookupNat]
    · simp [aincr, alookup, h, ih, lookupNat]

theorem alookup_aincr_ne (m : List (String × Nat)) {k j : String}
    (h : j ≠ k) : alookup (aincr m k) j = alookup m j := by
  induction m with
  | nil => simp [aincr, alookup, Ne.symm h]
  | cons e rest ih =>
    obtain ⟨a, b⟩ := e
    by_cases ha : a = k
    · simp only [aincr, if_pos ha]
      have haj : ¬ (a = j) := by
        rw [ha]
        exact Ne.symm h
      simp [alookup, haj]
    · by_cases haj : a = j
      · simp [aincr, alookup, ha, haj, h]
      · simp [aincr, alookup, ha, haj, ih]

theorem akeys_aincr (m : List (String × Nat)) (k : String) :
    akeys (aincr m k) = if k ∈ akeys m then akeys m else akeys m ++ [k] := by
  induction m with
  | nil => simp [aincr, akeys]
  | cons e rest ih =>
    obtain ⟨a, b⟩ := e
    by_cases h : a = k
    · subst h
      simp [aincr, akeys]
    · rw [show aincr ((a, b) :: rest) k = (a, b) :: aincr rest k from by
        simp [aincr, h]]
      rw [akeys_cons, akeys_cons, ih]
      by_cases hm : k ∈ akeys rest
      · rw [if_pos hm, if_pos (by simp [hm])]
      · rw [if_neg hm, if_neg (by simp [hm, Ne.symm h]), List.cons_append]

theorem akeys_aincr_nodup {m : List (String × Nat)}
    (hn : (akeys m).Nodup) (k : String) : (akeys (aincr m k)).Nodup := by
  rw [akeys_aincr]
  by_cases h : k ∈ akeys m
  · simpa [h] using hn
  · simp only [h, if_false]
    simp [List.nodup_append, hn, h]

/-! ## Lemmas about the Set-spread deduplication -/

theorem mem_insertIfNew {acc : List String} {x y : String} :
    y ∈ insertIfNew acc x ↔ y ∈ acc ∨ y = x := by
  unfold insertIfNew
  by_cases h : x ∈ acc
  · simp only [if_pos h]
    constructor
    · exact Or.inl
    · rintro (hy | rfl)
      · exact hy
      · exact h
  · simp [if_neg h]

theorem insertIfNew_of_mem {s : List String} {x : String} (h : x ∈ s) :
    insertIfNew s x = s := by
  simp [insertIfNew, h]

theorem mem_foldl_insertIfNew {l s : List String} {y : String} :
    y ∈ l.foldl insertIfNew s ↔ y ∈ s ∨ y ∈ l := by
  induction l generalizing s with
  | nil => simp
  | cons a l ih =>
    rw [List.foldl_cons, ih, mem_insertIfNew]
    simp only [List.mem_cons]
    constructor
    · rintro ((h | rfl) | h)
      · exact Or.inl h
      · exact Or.inr (Or.inl rfl)
      · exact Or.inr (Or.inr h)
    · rintro (h | rfl | h)
      · exact Or.inl (Or.inl h)
      · exact Or.inl (Or.inr rfl)
      · exact Or.inr h

theorem nodup_foldl_insertIfNew {l s : List String} (h : s.Nodup) :
    (l.foldl insertIfNew s).Nodup := by
  induction l generalizing s with
  | nil => exact h
  | cons a l ih =>
    rw [List.foldl_cons]
    apply ih
    unfold insertIfNew
    by_cases ha : a ∈ s
    · simpa [ha] using h
    · simp [ha, List.nodup_append, h]

theorem dedupFirst_nodup (l : List String) : (dedupFirst l).Nodup :=
  nodup_foldl_insertIfNew List.nodup_nil

theorem mem_dedupFirst {l : List String} {y : String} :
    y ∈ dedupFirst l ↔ y ∈ l := by
  unfold dedupFirst
  rw [mem_foldl_insertIfNew]
  simp

theorem dedupFirst_append_absorb {a l : List String} {x : String} (h : x ∈ a) :
    dedupFirst (a ++ x :: l) = dedupFirst (a ++ l) := by
  unfold dedupFirst
  rw [List.foldl_append, List.foldl_append, List.foldl_cons,
    insertIfNew_of_mem (mem_foldl_insertIfNew.mpr (Or.inr h))]

/-! ## The requires inference (C3) -/

theorem requires_fold_dedup (key : String) (pats : List String) :
    ∀ acc : List String,
      dedupFirst
        (pats.foldl (fun acc2 x => if x ≠ key ∧ x ∉ acc2 then acc2 ++ [x] else acc2) acc) =
      dedupFirst (acc ++ pats.filter (fun x => decide (x ≠ key))) := by
  induction pats with
  | nil =>
    intro acc
    simp
  | cons x pats ih =>
    intro acc
    rw [List.foldl_cons]
    by_cases hk : x = key
    · rw [if_neg (fun hc => hc.1 hk), List.filter_cons_of_neg (by simp [hk])]
      exact ih acc
    · by_cases hm : x ∈ acc
      · rw [if_neg (fun hc => hc.2 hm), List.filter_cons_of_pos (by simp [hk])]
        rw [dedupFirst_append_absorb hm]
        exact ih acc
      · rw [if_pos ⟨hk, hm⟩, List.filter_cons_of_pos (by simp [hk])]
        rw [ih (acc ++ [x]), List.append_assoc, List.singleton_append]

theorem knownRelationships_getD_cases (key : String) :
    (knownRelationships key).getD [] = [] ∨
    (knownRelationships key).getD [] = ["Interactable"] ∨
    (knownRelationships key).getD [] = ["PhysicsShape"] := by
  unfold knownRelationships
  by_cases h1 : key = "OneHandGrabbable"
  · simp [h1]
  by_cases h2 : key = "TwoHandsGrabbable"
  · simp [h1, h2]
  by_cases h3 : key = "DistanceGrabbable"
  · simp [h1, h2, h3]
  by_cases h4 : key = "PhysicsBody"
  · simp [h1, h2, h3, h4]
  simp [h1, h2, h3, h4]

theorem requiresAfterExtraction_spec (key : String)
    (fd : Option RelationshipFileData) :
    requiresAfterExtraction key [] fd =
      dedupFirst
        (((knownRelationships key).getD []) ++
         ((fd.map (fun d => d.tagRequires)).getD []) ++
         ((fd.map (fun d => d.callPatternNames)).getD []).filter
           (fun x => decide (x ≠ key))) ∧
    (requiresAfterExtraction key [] fd).Nodup := by
  have hstatic : ∀ r1 : List String,
      (match knownRelationships key with
       | some l => l
       | none => ([] : List String)) = (knownRelationships key).getD [] := by
    intro r1
    cases knownRelationships key <;> rfl
  match fd with
  | none =>
    constructor
    · show (match knownRelationships key with
             | some l => l
             | none => ([] : List String)) = _
      rw [hstatic []]
      rcases knownRelationships_getD_cases key with h | h | h <;>
        rw [h] <;> simp <;> decide
    · show (match knownRelationships key with
             | some l => l
             | none => ([] : List String)).Nodup
      rw [hstatic []]
      rcases knownRelationships_getD_cases key with h | h | h <;> rw [h] <;> decide
  | some d =>
    constructor
    · show dedupFirst
          (d.callPatternNames.foldl
            (fun acc2 x => if x ≠ key ∧ x ∉ acc2 then acc2 ++ [x] else acc2)
            ((match knownRelationships key with
              | some l => l
              | none => ([] : List String)) ++ d.tagRequires)) = _
      rw [requires_fold_dedup, hstatic []]
      simp [List.append_assoc]
    · exact dedupFirst_nodup _

/-- C3: after relationship extraction every record's requires list is
duplicate-free and equals, in insertion order, the first-occurrence
deduplication of the static table entry, then the doc-comment tag names,
then the call-pattern names other than the component's own name; and the
OneHandGrabbable scenario produces exactly the static entry. -/
theorem C3_requires_dedup_union
    (fileData : String → Option RelationshipFileData)
    (components : List (String × ComponentDefinition))
    (h0 : ∀ e ∈ components, e.2.requires = []) :
    (∀ e ∈ extractComponentRelationships fileData components,
      e.2.requires.Nodup ∧
      e.2.requires =
        dedupFirst
          (((knownRelationships e.1).getD []) ++
           (((fileData e.1).map (fun d => d.tagRequires)).getD []) ++
           ((((fileData e.1).map (fun d => d.callPatternNames)).getD []).filter
             (fun x => decide (x ≠ e.1))))) ∧
    requiresAfterExtraction "OneHandGrabbable" [] none = ["Interactable"] ∧
    requiresAfterExtraction "OneHandGrabbable" []
      (some { tagRequires := [], callPatternNames := [] }) = ["Interactable"] := by
  refine ⟨?_, by decide, by decide⟩
  intro e he
  unfold extractComponentRelationships at he
  rcases List.mem_map.mp he with ⟨e0, he0, rfl⟩
  have hr0 : e0.2.requires = [] := h0 e0 he0
  have hspec := requiresAfterExtraction_spec e0.1 (fileData e0.1)
  simp only [hr0]
  exact ⟨hspec.2, hspec.1⟩

/-- Witness for C3 at a one-component map with no source file data. -/
theorem C3_requires_dedup_union_witness :
    (∀ e ∈ extractComponentRelationships (fun _ => none)
        [("OneHandGrabbable", mkBareComponent "OneHandGrabbable")],
      e.2.requires.Nodup ∧
      e.2.requires =
        dedupFirst
          (((knownRelationships e.1).getD []) ++ ([] : List String) ++
           ([] : List String))) ∧
    requiresAfterExtraction "OneHandGrabbable" [] none = ["Interactable"] ∧
    requiresAfterExtraction "OneHandGrabbable" []
      (some { tagRequires := [], callPatternNames := [] }) = ["Interactable"] :=
  C3_requires_dedup_union (fun _ => none)
    [("OneHandGrabbable", mkBareComponent "OneHandGrabbable")] (by decide)

/-! ## The validation rules (C6) -/

theorem filter_error_component_rules
    (components : List (String × ComponentDefinition)) :
    ((components.flatMap
      (fun e =>
        (if e.2.requires.length > 0 then [mkRequiresRule e.1 e.2] else []) ++
        (if e.2.usedBySystems.length > 0 then [mkSystemRule e.1 e.2] else []))).filter
      (fun r => decide (r.severity = "error"))) =
    (components.filter (fun e => decide (e.2.requires.length > 0))).map
      (fun e => mkRequiresRule e.1 e.2) := by
  induction components with
  | nil => rfl
  | cons e rest ih =>
    have hsys : ((if e.2.usedBySystems.length > 0 then [mkSystemRule e.1 e.2] else []).filter
        (fun r => decide (r.severity = "error"))) = [] := by
      split
      · simp [mkSystemRule]
      · rfl
    rw [List.flatMap_cons, List.filter_append, List.filter_append, hsys, ih,
      List.append_nil]
    by_cases h1 : e.2.requires.length > 0
    · rw [if_pos h1, List.filter_cons_of_pos (by simp [mkRequiresRule]),
        List.filter_cons_of_pos (by simpa using h1), List.map_cons]
      rfl
    · rw [if_neg h1, List.filter_cons_of_neg (by simpa using h1)]
      rfl

theorem filter_error_system_rules
    (systems : List (String × SystemDefinition)) :
    ((systems.flatMap
      (fun e =>
        if e.2.queriesComponents.length > 0 then [mkQueriesRule e.1 e.2] else [])).filter
      (fun r => decide (r.severity = "error"))) = [] := by
  rw [List.filter_eq_nil_iff]
  intro r hr
  rcases List.mem_flatMap.mp hr with ⟨e, _, hre⟩
  revert hre
  split
  · intro hre
    rw [List.mem_singleton.mp hre]
    simp [mkQueriesRule]
  · intro hre
    simp at hre

/-- C6: every generated validation rule has severity error or warning, the
error rules are exactly one per component with a non-empty requires list,
and every error rule's id names such a component. -/
theorem C6_validation_rules
    (components : List (String × ComponentDefinition))
    (systems : List (String × SystemDefinition)) :
    (∀ r ∈ generateValidationRules components systems,
       r.severity = "error" ∨ r.severity = "warning") ∧
    ((generateValidationRules components systems).filter
        (fun r => decide (r.severity = "error")) =
      (components.filter (fun e => decide (e.2.requires.length > 0))).map
        (fun e => mkRequiresRule e.1 e.2)) ∧
    (∀ r ∈ generateValidationRules components systems,
       r.severity = "error" →
       ∃ e ∈ components, e.2.requires ≠ [] ∧
         r.id = "component-" ++ e.1 ++ "-requires") := by
  have hfilter : (generateValidationRules components systems).filter
      (fun r => decide (r.severity = "error")) =
      (components.filter (fun e => decide (e.2.requires.length > 0))).map
        (fun e => mkRequiresRule e.1 e.2) := by
    unfold generateValidationRules
    rw [List.filter_append, List.filter_append, filter_error_component_rules,
      filter_error_system_rules, List.filter_cons_of_neg (by simp [entityCreationRule])]
    simp
  refine ⟨?_, hfilter, ?_⟩
  · intro r hr
    unfold generateValidationRules at hr
    rcases List.mem_append.mp hr with hr1 | hr3
    · rcases List.mem_append.mp hr1 with hr1 | hr2
      · rcases List.mem_flatMap.mp hr1 with ⟨e, _, hre⟩
        rcases List.mem_append.mp hre with hra | hrb
        · revert hra
          split
          · intro hra
            rw [List.mem_singleton.mp hra]
            exact Or.inl rfl
          · intro hra
            simp at hra
        · revert hrb
          split
          · intro hrb
            rw [List.mem_singleton.mp hrb]
            exact Or.inr rfl
          · intro hrb
            simp at hrb
      · rcases List.mem_flatMap.mp hr2 with ⟨e, _, hre⟩
        revert hre
        split
        · intro hre
          rw [List.mem_singleton.mp hre]
          exact Or.inr rfl
        · intro hre
          simp at hre
    · rw [List.mem_singleton.mp hr3]
      exact Or.inr rfl
  · intro r hr hsev
    have : r ∈ (generateValidationRules components systems).filter
        (fun r => decide (r.severity = "error")) :=
      List.mem_filter.mpr ⟨hr, by simp [hsev]⟩
    rw [hfilter] at this
    rcases List.mem_map.mp this with ⟨e, hef, rfl⟩
    rcases List.mem_filter.mp hef with ⟨hec, hcond⟩
    refine ⟨e, hec, ?_, rfl⟩
    intro hnil
    simp [hnil] at hcond

/-- Witness for C6: the error rule of a one-component map is classified. -/
theorem C6_validation_rules_witness :
    (mkRequiresRule "PhysicsBody" physicsBodyRecord).severity = "error" ∨
    (mkRequiresRule "PhysicsBody" physicsBodyRecord).severity = "warning" :=
  (C6_validation_rules [("PhysicsBody", physicsBodyRecord)] []).1
    (mkRequiresRule "PhysicsBody" physicsBodyRecord) (by decide)

/-! ## The ordering constraints (C5) -/

theorem countP_eq_one_of_nodup_mem {l : List String} (hn : l.Nodup) {r : String}
    (hr : r ∈ l) : l.countP (fun x => decide (x = r)) = 1 := by
  induction l with
  | nil => simp at hr
  | cons x rest ih =>
    rw [List.countP_cons]
    rcases List.mem_cons.mp hr with rfl | hr2
    · have hzero : rest.countP (fun y => decide (y = r)) = 0 := by
        rw [List.countP_eq_zero]
        intro a ha
        simp only [decide_eq_true_eq]
        intro hax
        exact (List.nodup_cons.mp hn).1 (hax ▸ ha)
      simp [hzero]
    · have hxr : ¬ (x = r) := by
        intro hxr
        exact (List.nodup_cons.mp hn).1 (hxr ▸ hr2)
      rw [ih (List.nodup_cons.mp hn).2 hr2]
      simp [hxr]

theorem ordering_count_one
    {components : List (String × ComponentDefinition)}
    (hkeys : (akeys components).Nodup)
    {n : String} {c : ComponentDefinition} (he : (n, c) ∈ components)
    (hreq : c.requires.Nodup) {r : String} (hr : r ∈ c.requires) :
    (generateOrderingConstraints components).countP
      (fun con => decide (con.before = n ∧ con.after = r)) = 1 := by
  induction components with
  | nil => simp at he
  | cons e rest ih =>
    obtain ⟨a, b⟩ := e
    unfold generateOrderingConstraints
    rw [List.flatMap_cons, List.countP_append]
    rw [akeys_cons, List.nodup_cons] at hkeys
    rcases List.mem_cons.mp he with h1 | h2
    · injection h1 with h1a h1b
      subst h1a
      subst h1b
      have htail :
          (rest.flatMap
            (fun e =>
              e.2.requires.map
                (fun required =>
                  ({ before := e.1, after := required,
                     reason := e.1 ++ " requires " ++ required ++ " to be added first" } :
                    OrderingConstraint)))).countP
            (fun con => decide (con.before = n ∧ con.after = r)) = 0 := by
        rw [List.countP_eq_zero]
        intro con hcon
        rcases List.mem_flatMap.mp hcon with ⟨e2, he2, hcone⟩
        rcases List.mem_map.mp hcone with ⟨req, _, rfl⟩
        simp only [decide_eq_true_eq]
        rintro ⟨hb, _⟩
        exact hkeys.1 (hb ▸ mem_akeys_of_mem he2)
      rw [htail, List.countP_map]
      have hcomp :
          ((fun con : OrderingConstraint => decide (con.before = n ∧ con.after = r)) ∘
            (fun required =>
              ({ before := n, after := required,
                 reason := n ++ " requires " ++ required ++ " to be added first" } :
                OrderingConstraint))) = fun req => decide (req = r) := by
        funext req
        simp
      rw [hcomp, countP_eq_one_of_nodup_mem hreq hr]
    · have hne : ¬ (a = n) := by
        intro hh
        apply hkeys.1
        rw [hh]
        exact mem_akeys_of_mem h2
      have hhead :
          (b.requires.map
            (fun required =>
              ({ before := a, after := required,
                 reason := a ++ " requires " ++ required ++ " to be added first" } :
                OrderingConstraint))).countP
            (fun con => decide (con.before = n ∧ con.after = r)) = 0 := by
        rw [List.countP_eq_zero]
        intro con hcon
        rcases List.mem_map.mp hcon with ⟨req, _, rfl⟩
        simp only [decide_eq_true_eq]
        rintro ⟨hb, _⟩
        exact hne hb
      rw [hhead]
      have := ih hkeys.2 h2
      unfold generateOrderingConstraints at this
      rw [this]

/-- C5: every ordering constraint names a required component of the
component it orders, and each (component, required name) pair produces
exactly one constraint. -/
theorem C5_ordering_constraints
    (components : List (String × ComponentDefinition))
    (hkeys : (akeys components).Nodup)
    (hreq : ∀ e ∈ components, e.2.requires.Nodup) :
    (∀ con ∈ generateOrderingConstraints components,
       ∃ c, alookup components con.before = some c ∧ con.after ∈ c.requires) ∧
    (∀ e ∈ components, ∀ r ∈ e.2.requires,
       ((generateOrderingConstraints components).filter
         (fun con => decide (con.before = e.1 ∧ con.after = r))).length = 1) := by
  constructor
  · intro con hcon
    unfold generateOrderingConstraints at hcon
    rcases List.mem_flatMap.mp hcon with ⟨e, he, hcone⟩
    rcases List.mem_map.mp hcone with ⟨req, hreqm, rfl⟩
    exact ⟨e.2, mem_alookup hkeys he, hreqm⟩
  · intro e he r hr
    rw [← List.countP_eq_length_filter]
    exact ordering_count_one hkeys he (hreq e he) hr

/-- Witness for C5 at a one-component map. -/
theorem C5_ordering_constraints_witness :
    ((generateOrderingConstraints [("PhysicsBody", physicsBodyRecord)]).filter
      (fun con => decide (con.before = "PhysicsBody" ∧ con.after = "PhysicsShape"))).length = 1 :=
  (C5_ordering_constraints [("PhysicsBody", physicsBodyRecord)] (by decide)
      (by decide)).2
    ("PhysicsBody", physicsBodyRecord) (by decide) "PhysicsShape" (by decide)

/-! ## The queried-component extraction (C7) -/

theorem mem_queriedFromRequired {v : JsAst} {x : String}
    (h : x ∈ queriedFromRequired v) :
    requiredElementKept x = true ∧ x ∈ rawFromRequired v := by
  cases v with
  | arrayLit elements =>
    have hm := List.mem_filter.mp h
    exact ⟨hm.2, hm.1⟩
  | call fn args => simp [queriedFromRequired] at h
  | objectLit props => simp [queriedFromRequired] at h
  | propAssign n v2 => simp [queriedFromRequired] at h
  | otherNode => simp [queriedFromRequired] at h

theorem mem_queriesFromQueryDef {q : JsAst} {x : String}
    (h : x ∈ queriesFromQueryDef q) :
    requiredElementKept x = true ∧ x ∈ rawFromQueryDef q := by
  cases q with
  | objectLit qprops =>
    rcases List.mem_flatMap.mp h with ⟨qp, hqp, hx⟩
    cases qp with
    | propAssign pname init =>
      have hx2 : x ∈ (if pname = "required" then queriedFromRequired init else []) := hx
      by_cases hp : pname = "required"
      · rw [if_pos hp] at hx2
        have := mem_queriedFromRequired hx2
        refine ⟨this.1, ?_⟩
        refine List.mem_flatMap.mpr ⟨JsAst.propAssign pname init, hqp, ?_⟩
        show x ∈ (if pname = "required" then rawFromRequired init else [])
        rw [if_pos hp]
        exact this.2
      · rw [if_neg hp] at hx2
        simp at hx2
    | call fn args => simp at hx
    | objectLit props => simp at hx
    | arrayLit elements => simp at hx
    | otherNode => simp at hx
  | call fn args => simp [queriesFromQueryDef] at h
  | arrayLit elements => simp [queriesFromQueryDef] at h
  | propAssign n v2 => simp [queriesFromQueryDef] at h
  | otherNode => simp [queriesFromQueryDef] at h

theorem mem_queriesFromArg {arg : JsAst} {x : String}
    (h : x ∈ queriesFromArg arg) :
    requiredElementKept x = true ∧ x ∈ rawFromArg arg := by
  cases arg with
  | objectLit props =>
    rcases List.mem_flatMap.mp h with ⟨p, hp, hx⟩
    cases p with
    | propAssign pname init =>
      have := mem_queriesFromQueryDef hx
      exact ⟨this.1,
        List.mem_flatMap.mpr ⟨JsAst.propAssign pname init, hp, this.2⟩⟩
    | call fn args => simp at hx
    | objectLit props2 => simp at hx
    | arrayLit elements => simp at hx
    | otherNode => simp at hx
  | call fn args => simp [queriesFromArg] at h
  | arrayLit elements => simp [queriesFromArg] at h
  | propAssign n v2 => simp [queriesFromArg] at h
  | otherNode => simp [queriesFromArg] at h

theorem mem_queriesFromExpr {e : JsAst} {x : String}
    (h : x ∈ queriesFromExpr e) :
    requiredElementKept x = true ∧ x ∈ rawFromExpr e := by
  cases e with
  | call fn args =>
    cases args with
    | nil => simp [queriesFromExpr] at h
    | cons a rest =>
      by_cases hfn : fn = "createSystem"
      · rw [show queriesFromExpr (JsAst.call fn (a :: rest)) =
            (if fn = "createSystem" then queriesFromArg a else []) from rfl,
          if_pos hfn] at h
        have := mem_queriesFromArg h
        refine ⟨this.1, ?_⟩
        rw [show rawFromExpr (JsAst.call fn (a :: rest)) =
            (if fn = "createSystem" then rawFromArg a else []) from rfl, if_pos hfn]
        exact this.2
      · rw [show queriesFromExpr (JsAst.call fn (a :: rest)) =
            (if fn = "createSystem" then queriesFromArg a else []) from rfl,
          if_neg hfn] at h
        simp at h
  | objectLit props => simp [queriesFromExpr] at h
  | arrayLit elements => simp [queriesFromExpr] at h
  | propAssign n v2 => simp [queriesFromExpr] at h
  | otherNode => simp [queriesFromExpr] at h

/-- C7: extractQueriedComponents records only elements of required arrays
whose first character is an ASCII uppercase letter, and the FooSystem
scenario records exactly A. -/
theorem C7_queried_components :
    (∀ (clauses : List (List HeritageType)) (x : String),
       x ∈ extractQueriedComponents clauses →
       requiredElementKept x = true ∧ x ∈ requiredElementsOf clauses) ∧
    extractQueriedComponents fooSystemHeritage = ["A"] := by
  constructor
  · intro clauses x hx
    unfold extractQueriedComponents at hx
    rw [mem_dedupFirst] at hx
    rcases List.mem_flatMap.mp hx with ⟨clause, hclause, hx2⟩
    rcases List.mem_flatMap.mp hx2 with ⟨t, ht, hx3⟩
    cases t with
    | exprWithTypeArgs e =>
      have := mem_queriesFromExpr hx3
      refine ⟨this.1, ?_⟩
      unfold requiredElementsOf
      exact List.mem_flatMap.mpr
        ⟨clause, hclause,
          List.mem_flatMap.mpr ⟨HeritageType.exprWithTypeArgs e, ht, this.2⟩⟩
    | otherType => simp at hx3
  · decide

/-- Witness for C7 at the FooSystem scenario. -/
theorem C7_queried_components_witness :
    requiredElementKept "A" = true ∧ "A" ∈ requiredElementsOf fooSystemHeritage :=
  C7_queried_components.1 fooSystemHeritage "A" (by decide)

/-! ## The optionalWith band (C2) -/

theorem mem_map_fst_filter {β : Type} {m : List (String × β)}
    (hn : (akeys m).Nodup) (p : String × β → Bool) (x : String) :
    x ∈ (m.filter p).map (fun e => e.1) ↔
      ∃ v, alookup m x = some v ∧ p (x, v) = true := by
  constructor
  · intro hx
    rcases List.mem_map.mp hx with ⟨e, hef, rfl⟩
    rcases List.mem_filter.mp hef with ⟨hem, hep⟩
    exact ⟨e.2, mem_alookup hn hem, hep⟩
  · rintro ⟨v, hlk, hp⟩
    exact List.mem_map.mpr ⟨(x, v), List.mem_filter.mpr ⟨alookup_mem hlk, hp⟩, rfl⟩

theorem akeys_foldl_aset_nodup {β : Type} (f : String × Nat → β)
    (counts : List (String × Nat)) :
    ∀ (m0 : List (String × β)), (akeys m0).Nodup →
      (akeys (counts.foldl (fun m e => aset m e.1 (f e)) m0)).Nodup := by
  induction counts with
  | nil =>
    intro m0 h
    exact h
  | cons e rest ih =>
    intro m0 h
    rw [List.foldl_cons]
    exact ih _ (akeys_aset_nodup h _ _)

theorem band_iff (counts : List (String × Nat)) (len : Nat) (x : String) :
    x ∈ ((counts.foldl (fun m e => aset m e.1 (mkRat (Int.ofNat e.2) len))
          ([] : List (String × ℚ))).filter
        (fun e => decide (mkRat 1 2 < e.2 ∧ e.2 < 1))).map (fun e => e.1) ↔
    ∃ v, alookup
        (counts.foldl (fun m e => aset m e.1 (mkRat (Int.ofNat e.2) len))
          ([] : List (String × ℚ))) x = some v ∧ (1 : ℚ)/2 < v ∧ v < 1 := by
  have hhalf : (mkRat 1 2 : ℚ) = 1/2 := by
    rw [Rat.mkRat_eq_div]
    norm_num
  have hnodup :=
    akeys_foldl_aset_nodup (fun e => mkRat (Int.ofNat e.2) len) counts []
      (by simp [akeys])
  rw [mem_map_fst_filter hnodup]
  constructor
  · rintro ⟨v, hlk, hp⟩
    rw [decide_eq_true_eq, hhalf] at hp
    exact ⟨v, hlk, hp⟩
  · rintro ⟨v, hlk, hp⟩
    refine ⟨v, hlk, ?_⟩
    rw [decide_eq_true_eq, hhalf]
    exact hp

/-- C2: for every record produced by the co-occurrence analysis, a name is
in optionalWith exactly when its stored coOccurrences value lies strictly
between one half and one. -/
theorem C2_optionalWith_band
    (components : List (String × ComponentDefinition))
    (examples : List ExampleCode)
    (h0 : ∀ e ∈ components, e.2.coOccurrences = [] ∧ e.2.optionalWith = []) :
    ∀ e ∈ analyzeComponentCoOccurrences components examples, ∀ x : String,
      x ∈ e.2.optionalWith ↔
      ∃ v : ℚ, alookup e.2.coOccurrences x = some v ∧ (1 : ℚ)/2 < v ∧ v < 1 := by
  intro e he x
  unfold analyzeComponentCoOccurrences at he
  rcases List.mem_map.mp he with ⟨e0, he0, rfl⟩
  obtain ⟨hco, hopt⟩ := h0 e0 he0
  simp only [analyzeOneComponent]
  by_cases hlen :
      (examples.filter (fun ex => decide (e0.2.name ∈ ex.componentsUsed))).length = 0
  · rw [if_pos hlen]
    simp [hco, hopt, alookup]
  · rw [if_neg hlen]
    dsimp only
    rw [hco]
    exact band_iff _ _ x

/-- Witness for C2 at the 3-out-of-4 physics scenario. -/
theorem C2_optionalWith_band_witness :
    "PhysicsShape" ∈
      ("PhysicsBody",
        analyzeOneComponent pbScenarioExamples (mkBareComponent "PhysicsBody")).2.optionalWith ↔
    ∃ v : ℚ,
      alookup
        ("PhysicsBody",
          analyzeOneComponent pbScenarioExamples
            (mkBareComponent "PhysicsBody")).2.coOccurrences "PhysicsShape" = some v ∧
      (1 : ℚ)/2 < v ∧ v < 1 :=
  C2_optionalWith_band [("PhysicsBody", mkBareComponent "PhysicsBody")]
    pbScenarioExamples (by decide)
    ("PhysicsBody", analyzeOneComponent pbScenarioExamples (mkBareComponent "PhysicsBody"))
    (by decide) "PhysicsShape"

/-! ## The co-occurrence frequencies (C1) -/

theorem lookupNat_aincr_self (m : List (String × Nat)) (k : String) :
    lookupNat (aincr m k) k = lookupNat m k + 1 := by
  unfold lookupNat
  rw [alookup_aincr_self]
  rfl

theorem lookupNat_aincr_ne (m : List (String × Nat)) {k j : String} (h : j ≠ k) :
    lookupNat (aincr m k) j = lookupNat m j := by
  unfold lookupNat
  rw [alookup_aincr_ne m h]

theorem count_filter_ne {l : List String} {x name : String} (hx : x ≠ name) :
    (l.filter (fun o => decide (o ≠ name))).count x = l.count x := by
  induction l with
  | nil => rfl
  | cons o l ih =>
    by_cases ho : o = name
    · rw [List.filter_cons_of_neg (by simp [ho])]
      rw [ih, List.count_cons]
      have h1 : ¬ (x = o) := by
        rw [ho]
        exact hx
      have h2 : ¬ (o = x) := fun hh => h1 hh.symm
      simp [h1, h2]
    · rw [List.filter_cons_of_pos (by simp [ho]), List.count_cons, List.count_cons, ih]

theorem lookupNat_countsForName (name : String) (l : List String) :
    ∀ (m : List (String × Nat)) (j : String),
      lookupNat (countsForName name m l) j =
        lookupNat m j + (l.filter (fun o => decide (o ≠ name))).count j := by
  induction l with
  | nil =>
    intro m j
    simp [countsForName]
  | cons o l ih =>
    intro m j
    by_cases ho : o = name
    · rw [show countsForName name m (o :: l) = countsForName name m l from by
        simp [countsForName, ho]]
      rw [ih, List.filter_cons_of_neg (by simp [ho])]
    · rw [show countsForName name m (o :: l) = countsForName name (aincr m o) l from by
        simp [countsForName, ho]]
      rw [ih, List.filter_cons_of_pos (by simp [ho]), List.count_cons]
      by_cases hj : j = o
      · subst hj
        rw [lookupNat_aincr_self]
        simp
        omega
      · rw [lookupNat_aincr_ne m hj]
        have hoj : ¬ (o = j) := fun hh => hj hh.symm
        simp [hj, hoj]

theorem akeys_countsForName_nodup (name : String) (l : List String) :
    ∀ m : List (String × Nat), (akeys m).Nodup →
      (akeys (countsForName name m l)).Nodup := by
  induction l with
  | nil =>
    intro m h
    exact h
  | cons o l ih =>
    intro m h
    by_cases ho : o = name
    · rw [show countsForName name m (o :: l) = countsForName name m l from by
        simp [countsForName, ho]]
      exact ih m h
    · rw [show countsForName name m (o :: l) = countsForName name (aincr m o) l from by
        simp [countsForName, ho]]
      exact ih _ (akeys_aincr_nodup h o)

theorem alookup_countsForName_name (name : String) (l : List String) :
    ∀ m : List (String × Nat), alookup m name = none →
      alookup (countsForName name m l) name = none := by
  induction l with
  | nil =>
    intro m h
    exact h
  | cons o l ih =>
    intro m h
    by_cases ho : o = name
    · rw [show countsForName name m (o :: l) = countsForName name m l from by
        simp [countsForName, ho]]
      exact ih m h
    · rw [show countsForName name m (o :: l) = countsForName name (aincr m o) l from by
        simp [countsForName, ho]]
      refine ih _ ?_
      rw [alookup_aincr_ne m (fun hno => ho hno.symm)]
      exact h

theorem lookupNat_counts_examples (name : String) (exs : List ExampleCode) :
    ∀ (m : List (String × Nat)) (j : String),
      lookupNat (exs.foldl (fun m2 ex => countsForName name m2 ex.componentsUsed) m) j =
        lookupNat m j +
          (exs.map
            (fun ex => (ex.componentsUsed.filter (fun o => decide (o ≠ name))).count j)).sum := by
  induction exs with
  | nil =>
    intro m j
    simp
  | cons ex exs ih =>
    intro m j
    rw [List.foldl_cons, ih, lookupNat_countsForName]
    simp [Nat.add_assoc]

theorem akeys_counts_examples_nodup (name : String) (exs : List ExampleCode) :
    ∀ m : List (String × Nat), (akeys m).Nodup →
      (akeys (exs.foldl (fun m2 ex => countsForName name m2 ex.componentsUsed) m)).Nodup := by
  induction exs with
  | nil =>
    intro m h
    exact h
  | cons ex exs ih =>
    intro m h
    rw [List.foldl_cons]
    exact ih _ (akeys_countsForName_nodup name ex.componentsUsed m h)

theorem alookup_counts_examples_name (name : String) (exs : List ExampleCode) :
    ∀ m : List (String × Nat), alookup m name = none →
      alookup (exs.foldl (fun m2 ex => countsForName name m2 ex.componentsUsed) m) name = none := by
  induction exs with
  | nil =>
    intro m h
    exact h
  | cons ex exs ih =>
    intro m h
    rw [List.foldl_cons]
    exact ih _ (alookup_countsForName_name name ex.componentsUsed m h)

theorem alookup_foldl_aset_eq {β : Type} (f : String × Nat → β) :
    ∀ (counts : List (String × Nat)) (m0 : List (String × β)) (j : String),
      (akeys counts).Nodup →
      (∀ k ∈ akeys counts, alookup m0 k = none) →
      alookup (counts.foldl (fun m e => aset m e.1 (f e)) m0) j =
        match alookup counts j with
        | some v => some (f (j, v))
        | none => alookup m0 j := by
  intro counts
  induction counts with
  | nil =>
    intro m0 j _ _
    rfl
  | cons e rest ih =>
    obtain ⟨k, v⟩ := e
    intro m0 j hnodup hnone
    rw [akeys_cons, List.nodup_cons] at hnodup
    rw [List.foldl_cons]
    have hm1 : ∀ k2 ∈ akeys rest, alookup (aset m0 k (f (k, v))) k2 = none := by
      intro k2 hk2
      have hk2k : k2 ≠ k := by
        intro hh
        exact hnodup.1 (hh ▸ hk2)
      rw [alookup_aset_ne m0 _ hk2k]
      exact hnone k2 (by rw [akeys_cons]; exact List.mem_cons_of_mem _ hk2)
    rw [ih _ j hnodup.2 hm1]
    by_cases hkj : k = j
    · subst hkj
      have hrest : alookup rest k = none := alookup_eq_none.mpr hnodup.1
      rw [hrest]
      show alookup (aset m0 k (f (k, v))) k = _
      rw [alookup_aset_self]
      show _ = (match alookup ((k, v) :: rest) k with
        | some v2 => some (f (k, v2))
        | none => alookup m0 k)
      simp [alookup, hrest]
    · have hcons : alookup ((k, v) :: rest) j = alookup rest j := by
        simp [alookup, hkj]
      rw [hcons]
      cases hrj : alookup rest j with
      | some v2 => rfl
      | none =>
        show alookup (aset m0 k (f (k, v))) j = alookup m0 j
        exact alookup_aset_ne m0 _ (fun hh => hkj hh.symm)

theorem counts_sum_eq_filter_length {name x : String} (hx : x ≠ name) :
    ∀ exs : List ExampleCode, (∀ ex ∈ exs, ex.componentsUsed.Nodup) →
      (exs.map
        (fun ex => (ex.componentsUsed.filter (fun o => decide (o ≠ name))).count x)).sum =
      (exs.filter (fun ex => decide (x ∈ ex.componentsUsed))).length := by
  intro exs
  induction exs with
  | nil =>
    intro _
    rfl
  | cons ex exs ih =>
    intro hdup
    rw [List.map_cons, List.sum_cons, ih (fun e he => hdup e (List.mem_cons_of_mem _ he))]
    rw [count_filter_ne hx]
    by_cases hmem : x ∈ ex.componentsUsed
    · rw [List.count_eq_one_of_mem (hdup ex (List.mem_cons_self ex exs)) hmem,
        List.filter_cons_of_pos (by simpa using hmem), List.length_cons]
      omega
    · rw [List.count_eq_zero_of_not_mem hmem,
        List.filter_cons_of_neg (by simpa using hmem)]
      omega

/-- C1 (amended): when no example lists the same component twice, every
stored co-occurrence value is the number of examples using both components
divided by the number of examples using this component, and lies in the
closed unit interval. -/
theorem C1_cooccurrence_frequencies
    (components : List (String × ComponentDefinition))
    (examples : List ExampleCode)
    (hdup : ∀ ex ∈ examples, ex.componentsUsed.Nodup)
    (h0 : ∀ e ∈ components, e.2.coOccurrences = []) :
    ∀ e ∈ analyzeComponentCoOccurrences components examples, ∀ (x : String) (v : ℚ),
      alookup e.2.coOccurrences x = some v →
      v = ((examplesUsingBoth examples e.2.name x).length : ℚ) /
          ((examplesUsing examples e.2.name).length : ℚ) ∧
      0 ≤ v ∧ v ≤ 1 := by
  intro e he x v hv
  unfold analyzeComponentCoOccurrences at he
  rcases List.mem_map.mp he with ⟨e0, he0, rfl⟩
  have hco := h0 e0 he0
  simp only [analyzeOneComponent] at hv ⊢
  by_cases hlen :
      (examples.filter (fun ex => decide (e0.2.name ∈ ex.componentsUsed))).length = 0
  · rw [if_pos hlen] at hv
    rw [hco] at hv
    simp [alookup] at hv
  · rw [if_neg hlen] at hv ⊢
    dsimp only at hv ⊢
    rw [hco] at hv
    set name := e0.2.name with hname
    set ewc := examples.filter (fun ex => decide (name ∈ ex.componentsUsed)) with hewc
    set counts := ewc.foldl (fun m ex => countsForName name m ex.componentsUsed) [] with hcounts
    have hcnodup : (akeys counts).Nodup := by
      rw [hcounts]
      exact akeys_counts_examples_nodup name ewc [] (by simp [akeys])
    rw [alookup_foldl_aset_eq (fun e2 => mkRat (Int.ofNat e2.2) ewc.length) counts []
      x hcnodup (by intro k _; rfl)] at hv
    cases hlk : alookup counts x with
    | none =>
      rw [hlk] at hv
      simp [alookup] at hv
    | some n =>
      rw [hlk] at hv
      dsimp only at hv
      have hxname : x ≠ name := by
        intro hh
        have h2 := alookup_counts_examples_name name ewc [] rfl
        rw [← hcounts] at h2
        rw [hh, h2] at hlk
        exact Option.noConfusion hlk
      have hn : n = (ewc.filter (fun ex => decide (x ∈ ex.componentsUsed))).length := by
        have h1 : lookupNat counts x = n := by
          rw [lookupNat, hlk]
          rfl
        rw [hcounts] at h1
        rw [lookupNat_counts_examples name ewc [] x] at h1
        rw [counts_sum_eq_filter_length hxname ewc
          (fun ex hex => hdup ex (List.mem_filter.mp hex).1)] at h1
        simpa [lookupNat, alookup] using h1.symm
      have hvval : v = mkRat (Int.ofNat n) ewc.length := (Option.some.inj hv).symm
      have hnum :
          (ewc.filter (fun ex => decide (x ∈ ex.componentsUsed))).length =
          (examplesUsingBoth examples name x).length := by
        rw [hewc]
        unfold examplesUsingBoth
        rw [List.filter_filter]
        congr 1
        apply List.filter_congr
        intro ex _
        rw [Bool.and_comm]
      have hden : (examplesUsing examples name) = ewc := by
        rw [hewc]
        rfl
      have hle : n ≤ ewc.length := by
        rw [hn]
        exact List.length_filter_le _ _
      have hpos : 0 < ewc.length := Nat.pos_of_ne_zero hlen
      have hread : v = (n : ℚ) / (ewc.length : ℚ) := by
        rw [hvval, Rat.mkRat_eq_div]
        norm_num [Int.ofNat_eq_natCast]
      constructor
      · rw [hread, hden, ← hnum, ← hn]
      · constructor
        · rw [hread]
          positivity
        · rw [hread, div_le_one (by exact_mod_cast hpos)]
          exact_mod_cast hle

/-- Witness for the amended C1 at the 3-out-of-4 physics scenario. -/
theorem C1_cooccurrence_frequencies_witness :
    (mkRat 3 4 : ℚ) =
      ((examplesUsingBoth pbScenarioExamples
          (analyzeOneComponent pbScenarioExamples (mkBareComponent "PhysicsBody")).name
          "PhysicsShape").length : ℚ) /
        ((examplesUsing pbScenarioExamples
          (analyzeOneComponent pbScenarioExamples (mkBareComponent "PhysicsBody")).name).length : ℚ) ∧
    (0 : ℚ) ≤ mkRat 3 4 ∧ (mkRat 3 4 : ℚ) ≤ 1 :=
  C1_cooccurrence_frequencies [("PhysicsBody", mkBareComponent "PhysicsBody")]
    pbScenarioExamples (by decide) (by decide)
    ("PhysicsBody", analyzeOneComponent pbScenarioExamples (mkBareComponent "PhysicsBody"))
    (by decide) "PhysicsShape" (mkRat 3 4) (by decide)

/-- C1 counterexample: an entry file whose import statements mention B
twice makes the pipeline store the co-occurrence value 2 for B on the
record of A, which is outside the closed unit interval. -/
theorem C1_counterexample :
    (mkExampleFromCode dupImportCode).componentsUsed = ["B", "A", "B"] ∧
    (analyzeComponentCoOccurrences [("A", mkBareComponent "A")]
        [mkExampleFromCode dupImportCode]).map
      (fun e => alookup e.2.coOccurrences "B") = [some (mkRat 2 1)] ∧
    ¬ ((mkRat 2 1 : ℚ) ≤ 1) := by decide

/-! ## The telemetry sink (C9) -/

/-- C9: logToolCall reports success to its caller under every combination
of file-system outcomes; when the underlying operations succeed it appends
exactly one line, the serialized event built from the clock reading, the
tool name and the sanitized parameters; and sanitization truncates every
string value longer than 500 characters. -/
theorem C9_telemetry_swallow
    (encodeEvent : String → String → List (String × JsParamValue) → String)
    (sink : TelemetrySink) (toolName : String)
    (params : List (String × JsParamValue)) (timestamp : String) :
    (logToolCall encodeEvent sink toolName params timestamp).1 = Except.ok () ∧
    ((sink.dirExists = true ∨ sink.mkdirResult = Except.ok ()) →
      sink.appendResult = Except.ok () →
      (logToolCall encodeEvent sink toolName params timestamp).2 =
        [encodeEvent timestamp toolName (sanitizeParams params) ++ "\n"]) ∧
    (∀ k s, (k, JsParamValue.str s) ∈ params → 500 < s.length →
      (k, JsParamValue.str (String.mk (s.data.take 500) ++ truncatedSuffix)) ∈
        sanitizeParams params) := by
  refine ⟨?_, ?_, ?_⟩
  · unfold logToolCall
    rcases sink with ⟨de, mr, ar⟩
    cases de
    · dsimp only
      cases mr with
      | error e => rfl
      | ok u =>
        cases ar with
        | error e2 => rfl
        | ok u2 => rfl
    · dsimp only
      cases ar with
      | error e2 => rfl
      | ok u2 => rfl
  · intro hdir happ
    unfold logToolCall
    have hstep :
        (if sink.dirExists then Except.ok () else sink.mkdirResult :
          Except String Unit) = Except.ok () := by
      rcases hdir with h | h
      · rw [h]
        rfl
      · by_cases hd : sink.dirExists
        · rw [if_pos hd]
        · rw [if_neg hd]
          exact h
    rw [hstep, happ]
  · intro k s hmem hlen
    refine List.mem_map.mpr ⟨(k, JsParamValue.str s), hmem, ?_⟩
    dsimp only
    rw [if_pos hlen]

set_option maxRecDepth 4000 in
/-- Witness for C9: a successful append of one line, and the truncation of
a 501-character string. -/
theorem C9_telemetry_swallow_witness :
    (logToolCall (fun _ _ _ => "event")
        { dirExists := true, mkdirResult := Except.ok (), appendResult := Except.ok () }
        "tool" [("code", JsParamValue.str longString)] "ts").2 =
      ["event" ++ "\n"] ∧
    ("code", JsParamValue.str (String.mk (longString.data.take 500) ++ truncatedSuffix)) ∈
      sanitizeParams [("code", JsParamValue.str longString)] :=
  ⟨(C9_telemetry_swallow (fun _ _ _ => "event")
      { dirExists := true, mkdirResult := Except.ok (), appendResult := Except.ok () }
      "tool" [("code", JsParamValue.str longString)] "ts").2.1 (Or.inl rfl) rfl,
   (C9_telemetry_swallow (fun _ _ _ => "event")
      { dirExists := true, mkdirResult := Except.ok (), appendResult := Except.ok () }
      "tool" [("code", JsParamValue.str longString)] "ts").2.2 "code" longString
     (by decide) (by decide)⟩

/-! ## The cache materializer (C8) -/

/-- C8: with the parse results of the checkout fixed, two runs of the
materializer differ only in the metadata partition, and there only in the
serialized ingestDate value between a fixed prefix and a fixed suffix. -/
theorem C8_cache_idempotence (enc : JsonEnc) (p : ParsedInput) (now1 now2 : String) :
    (∀ name : String, name ≠ "metadata.json" →
       alookup (generateCacheOutputs enc p now1) name =
       alookup (generateCacheOutputs enc p now2) name) ∧
    alookup (generateCacheOutputs enc p now1) "metadata.json" =
      some (metadataPrefix ++ enc.str now1 ++ metadataSuffix enc p.version) ∧
    alookup (generateCacheOutputs enc p now2) "metadata.json" =
      some (metadataPrefix ++ enc.str now2 ++ metadataSuffix enc p.version) := by
  have hconsne : ∀ {a k : String} (b : String) (rest : List (String × String)),
      ¬ (a = k) → alookup ((a, b) :: rest) k = alookup rest k := by
    intro a k b rest h
    simp [alookup, h]
  refine ⟨?_, ?_, ?_⟩
  · intro name hname
    simp only [generateCacheOutputs, List.cons_append]
    rw [hconsne (metadataJson enc p.version now1) _ (fun hh => hname hh.symm),
      hconsne (metadataJson enc p.version now2) _ (fun hh => hname hh.symm)]
  · rfl
  · rfl

/-- Witness for C8: a non-metadata partition is unchanged across two runs
with different clock readings. -/
theorem C8_cache_idempotence_witness :
    alookup (generateCacheOutputs constEnc emptyParsed "2024-01-01T00:00:00Z")
        "components.json" =
      alookup (generateCacheOutputs constEnc emptyParsed "2024-02-02T00:00:00Z")
        "components.json" :=
  (C8_cache_idempotence constEnc emptyParsed "2024-01-01T00:00:00Z"
      "2024-02-02T00:00:00Z").1 "components.json" (by decide)

/-! ## The first-declarator restriction (C10) -/

theorem extract_scrub_cons (pkg fp : String) (d : CompDecl) (rest : List CompDecl)
    (jsdoc : JsDocInfo) :
    extractComponentFromStatement pkg fp (scrubDeclKeep d :: scrubDropDecls rest) jsdoc =
    extractComponentFromStatement pkg fp (d :: rest) jsdoc := by
  cases d with
  | decl s initOpt =>
    cases initOpt with
    | none => rfl
    | some i =>
      cases i with
      | callExpr f a ch => rfl
      | otherInit ch => rfl

theorem scrub_invariance_bounded :
    ∀ k : Nat,
      (∀ (pkg fp : String) (acc : List (String × ComponentDefinition)) (n : CompNode),
        sizeOf n ≤ k →
        visitCompNode pkg fp acc (scrubNode n) = visitCompNode pkg fp acc n) ∧
      (∀ (pkg fp : String) (acc : List (String × ComponentDefinition)) (ns : List CompNode),
        sizeOf ns ≤ k →
        visitCompNodes pkg fp acc (scrubNodes ns) = visitCompNodes pkg fp acc ns) ∧
      (∀ (pkg fp : String) (acc : List (String × ComponentDefinition)) (ds : List CompDecl),
        sizeOf ds ≤ k →
        visitCompDecls pkg fp acc (scrubDropDecls ds) = visitCompDecls pkg fp acc ds) ∧
      (∀ (pkg fp : String) (acc : List (String × ComponentDefinition)) (i : CompInit),
        sizeOf i ≤ k →
        visitCompInit pkg fp acc (scrubInitKeep i) = visitCompInit pkg fp acc i) ∧
      (∀ (pkg fp : String) (acc : List (String × ComponentDefinition)) (i : CompInit),
        sizeOf i ≤ k →
        visitCompNodes pkg fp acc (scrubInitChildren i) = visitCompInit pkg fp acc i) := by
  intro k
  induction k using Nat.strong_induction_on with
  | _ k IH =>
    refine ⟨?_, ?_, ?_, ?_, ?_⟩
    · intro pkg fp acc n hle
      cases n with
      | variableStatement decls jsdoc =>
        cases decls with
        | nil => rfl
        | cons d rest =>
          have hrest : sizeOf rest < k := by
            simp at hle
            omega
          show visitCompNode pkg fp acc
              (CompNode.variableStatement (scrubDeclKeep d :: scrubDropDecls rest) jsdoc) = _
          rw [visitCompNode, visitCompNode, extract_scrub_cons]
          cases d with
          | decl s initOpt =>
            cases initOpt with
            | none =>
              show visitCompDecls pkg fp _ (CompDecl.decl s none :: scrubDropDecls rest) = _
              rw [visitCompDecls, visitCompDecls]
              exact (IH (sizeOf rest) hrest).2.2.1 pkg fp _ rest (Nat.le_refl _)
            | some i =>
              have hi : sizeOf i < k := by
                simp at hle
                omega
              show visitCompDecls pkg fp _
                  (CompDecl.decl s (some (scrubInitKeep i)) :: scrubDropDecls rest) = _
              rw [visitCompDecls, visitCompDecls,
                (IH (sizeOf i) hi).2.2.2.1 pkg fp _ i (Nat.le_refl _)]
              exact (IH (sizeOf rest) hrest).2.2.1 pkg fp _ rest (Nat.le_refl _)
      | otherNode children =>
        have hch : sizeOf children < k := by
          simp at hle
          omega
        show visitCompNode pkg fp acc (CompNode.otherNode (scrubNodes children)) = _
        rw [visitCompNode, visitCompNode]
        exact (IH (sizeOf children) hch).2.1 pkg fp acc children (Nat.le_refl _)
    · intro pkg fp acc ns hle
      cases ns with
      | nil => rfl
      | cons n rest =>
        have hn : sizeOf n < k := by
          simp at hle
          omega
        have hrest : sizeOf rest < k := by
          simp at hle
          omega
        show visitCompNodes pkg fp acc (scrubNode n :: scrubNodes rest) = _
        rw [visitCompNodes, visitCompNodes,
          (IH (sizeOf n) hn).1 pkg fp acc n (Nat.le_refl _)]
        exact (IH (sizeOf rest) hrest).2.1 pkg fp _ rest (Nat.le_refl _)
    · intro pkg fp acc ds hle
      cases ds with
      | nil => rfl
      | cons d rest =>
        have hrest : sizeOf rest < k := by
          simp at hle
          omega
        cases d with
        | decl s initOpt =>
          cases initOpt with
          | none =>
            show visitCompDecls pkg fp acc (CompDecl.decl s none :: scrubDropDecls rest) = _
            rw [visitCompDecls, visitCompDecls]
            exact (IH (sizeOf rest) hrest).2.2.1 pkg fp acc rest (Nat.le_refl _)
          | some i =>
            have hi : sizeOf i < k := by
              simp at hle
              omega
            show visitCompDecls pkg fp acc
                (CompDecl.decl s (some (CompInit.otherInit (scrubInitChildren i))) ::
                  scrubDropDecls rest) = _
            rw [visitCompDecls, visitCompDecls, visitCompInit,
              (IH (sizeOf i) hi).2.2.2.2 pkg fp acc i (Nat.le_refl _)]
            exact (IH (sizeOf rest) hrest).2.2.1 pkg fp _ rest (Nat.le_refl _)
    · intro pkg fp acc i hle
      cases i with
      | callExpr f a ch =>
        have hch : sizeOf ch < k := by
          simp at hle
          omega
        show visitCompInit pkg fp acc (CompInit.callExpr f a (scrubNodes ch)) = _
        rw [visitCompInit, visitCompInit]
        exact (IH (sizeOf ch) hch).2.1 pkg fp acc ch (Nat.le_refl _)
      | otherInit ch =>
        have hch : sizeOf ch < k := by
          simp at hle
          omega
        show visitCompInit pkg fp acc (CompInit.otherInit (scrubNodes ch)) = _
        rw [visitCompInit, visitCompInit]
        exact (IH (sizeOf ch) hch).2.1 pkg fp acc ch (Nat.le_refl _)
    · intro pkg fp acc i hle
      cases i with
      | callExpr f a ch =>
        have hch : sizeOf ch < k := by
          simp at hle
          omega
        show visitCompNodes pkg fp acc (scrubNodes ch) = _
        rw [visitCompInit]
        exact (IH (sizeOf ch) hch).2.1 pkg fp acc ch (Nat.le_refl _)
      | otherInit ch =>
        have hch : sizeOf ch < k := by
          simp at hle
          omega
        show visitCompNodes pkg fp acc (scrubNodes ch) = _
        rw [visitCompInit]
        exact (IH (sizeOf ch) hch).2.1 pkg fp acc ch (Nat.le_refl _)

theorem visitCompNode_scrub (pkg fp : String)
    (acc : List (String × ComponentDefinition)) (n : CompNode) :
    visitCompNode pkg fp acc (scrubNode n) = visitCompNode pkg fp acc n :=
  (scrub_invariance_bounded (sizeOf n)).1 pkg fp acc n (Nat.le_refl _)

/-- C10: the component extractor consults only the first declarator of each
variable statement.  Forgetting the call shape of every other declarator's
direct initializer, anywhere in a source tree, never changes the extraction
result, and a two-declarator statement whose second declarator initializer
is a qualifying createComponent call yields no record. -/
theorem C10_first_declarator_only :
    (∀ (pkg fp : String) (acc : List (String × ComponentDefinition)) (n : CompNode),
       visitCompNode pkg fp acc (scrubNode n) = visitCompNode pkg fp acc n) ∧
    extractComponentsFromAST "@iwsdk/core" "packages/core/src/grab.ts"
      (CompNode.otherNode [twoDeclStatement]) = [] :=
  ⟨fun pkg fp acc n => visitCompNode_scrub pkg fp acc n, by decide⟩

/-! ## The typical compositions (C4) -/

theorem alookup_aincrPattern_self (m : List (String × PatternAcc)) (key : String) :
    alookup (aincrPattern m key) key =
      (alookup m key).map (fun b => { b with count := b.count + 1 }) := by
  induction m with
  | nil => rfl
  | cons e rest ih =>
    obtain ⟨a, b⟩ := e
    by_cases h : a = key
    · simp [aincrPattern, alookup, h]
    · simp [aincrPattern, alookup, h, ih]

theorem alookup_aincrPattern_ne (m : List (String × PatternAcc)) {key j : String}
    (h : j ≠ key) : alookup (aincrPattern m key) j = alookup m j := by
  induction m with
  | nil => rfl
  | cons e rest ih =>
    obtain ⟨a, b⟩ := e
    by_cases ha : a = key
    · have haj : ¬ (a = j) := by
        rw [ha]
        exact Ne.symm h
      simp [aincrPattern, alookup, ha, haj, Ne.symm h]
    · by_cases haj : a = j
      · simp [aincrPattern, alookup, ha, haj, h]
      · simp [aincrPattern, alookup, ha, haj, ih]

theorem akeys_aincrPattern (m : List (String × PatternAcc)) (key : String) :
    akeys (aincrPattern m key) = akeys m := by
  induction m with
  | nil => rfl
  | cons e rest ih =>
    obtain ⟨a, b⟩ := e
    by_cases h : a = key
    · simp [aincrPattern, akeys, h]
    · simp [aincrPattern, akeys_cons, h, ih]

theorem alookup_append_single {β : Type} (m : List (String × β)) (k : String)
    (v : β) (j : String) :
    alookup (m ++ [(k, v)]) j =
      match alookup m j with
      | some b => some b
      | none => if k = j then some v else none := by
  induction m with
  | nil => rfl
  | cons e rest ih =>
    obtain ⟨a, b⟩ := e
    by_cases ha : a = j
    · simp [alookup, ha]
    · simp [alookup, ha, ih]

theorem countKey_snoc (exs : List ExampleCode) (ex : ExampleCode) (key : String) :
    countKey (exs ++ [ex]) key =
      countKey exs key +
        (if (decide (2 ≤ ex.componentsUsed.length) &&
             decide (jsJoin "|" (sortStringsJs ex.componentsUsed) = key)) then 1 else 0) := by
  unfold countKey
  rw [List.filter_append, List.length_append]
  congr 1
  split
  · rename_i h
    simp [List.filter_cons, h]
  · rename_i h
    simp [List.filter_cons, h]

theorem patternsInv_step {pre : List ExampleCode} {m : List (String × PatternAcc)}
    (ex : ExampleCode) (h : PatternsInv pre m) :
    PatternsInv (pre ++ [ex]) (addExampleToPatterns m ex) := by
  obtain ⟨hnodup, hentries, hpresent⟩ := h
  have hred : addExampleToPatterns m ex =
      if ex.componentsUsed.length < 2 then m
      else
        match alookup m (jsJoin "|" (sortStringsJs ex.componentsUsed)) with
        | some _ => aincrPattern m (jsJoin "|" (sortStringsJs ex.componentsUsed))
        | none =>
          m ++ [(jsJoin "|" (sortStringsJs ex.componentsUsed),
            { components := sortStringsJs ex.componentsUsed, count := 1,
              category := ex.category })] := rfl
  rw [hred]
  by_cases hq : ex.componentsUsed.length < 2
  · rw [if_pos hq]
    have hzero : ∀ key, countKey (pre ++ [ex]) key = countKey pre key := by
      intro key
      rw [countKey_snoc]
      have hlt : ¬ (2 ≤ ex.componentsUsed.length) := by omega
      simp [hlt]
    refine ⟨hnodup, ?_, ?_⟩
    · intro key acc hl
      rw [hzero]
      exact hentries key acc hl
    · intro key hc
      rw [hzero] at hc
      exact hpresent key hc
  · rw [if_neg hq]
    have hq2 : 2 ≤ ex.componentsUsed.length := by omega
    have hcount : ∀ key, countKey (pre ++ [ex]) key =
        countKey pre key +
          (if jsJoin "|" (sortStringsJs ex.componentsUsed) = key then 1 else 0) := by
      intro key
      rw [countKey_snoc]
      by_cases hk : jsJoin "|" (sortStringsJs ex.componentsUsed) = key
      · simp [hk, hq2]
      · simp [hk]
    cases hlk : alookup m (jsJoin "|" (sortStringsJs ex.componentsUsed)) with
    | some acc =>
      refine ⟨by rw [akeys_aincrPattern]; exact hnodup, ?_, ?_⟩
      · intro key acc2 hl2
        by_cases hk : key = jsJoin "|" (sortStringsJs ex.componentsUsed)
        · rw [hk, alookup_aincrPattern_self, hlk] at hl2
          obtain ⟨hj, hc⟩ := hentries _ acc hlk
          injection hl2 with hl3
          constructor
          · rw [← hl3, hk]
            exact hj
          · rw [← hl3]
            show acc.count + 1 = countKey (pre ++ [ex]) key
            rw [hcount key, hk, if_pos rfl, hc]
        · rw [alookup_aincrPattern_ne m hk] at hl2
          obtain ⟨hj, hc⟩ := hentries key acc2 hl2
          refine ⟨hj, ?_⟩
          rw [hcount key, if_neg (fun hh => hk hh.symm), hc]
          omega
      · intro key hc
        by_cases hk : key = jsJoin "|" (sortStringsJs ex.componentsUsed)
        · rw [hk, alookup_aincrPattern_self, hlk]
          rfl
        · rw [alookup_aincrPattern_ne m hk]
          rw [hcount key, if_neg (fun hh => hk hh.symm)] at hc
          exact hpresent key (by omega)
    | none =>
      have hnotmem : jsJoin "|" (sortStringsJs ex.componentsUsed) ∉ akeys m :=
        alookup_eq_none.mp hlk
      have hprezero : countKey pre (jsJoin "|" (sortStringsJs ex.componentsUsed)) = 0 := by
        by_contra hne
        have hs := hpresent (jsJoin "|" (sortStringsJs ex.componentsUsed)) (by omega)
        rw [hlk] at hs
        exact Bool.noConfusion hs
      refine ⟨?_, ?_, ?_⟩
      · show (akeys (m ++ [(jsJoin "|" (sortStringsJs ex.componentsUsed),
          { components := sortStringsJs ex.componentsUsed, count := 1,
            category := ex.category })])).Nodup
        unfold akeys
        rw [List.map_append, List.nodup_append]
        refine ⟨hnodup, List.nodup_singleton _, ?_⟩
        intro a ha hb
        simp at hb
        rw [hb] at ha
        exact hnotmem ha
      · intro key acc2 hl2
        rw [alookup_append_single] at hl2
        cases hlm : alookup m key with
        | some b =>
          rw [hlm] at hl2
          injection hl2 with hl3
          obtain ⟨hj, hc⟩ := hentries key b hlm
          have hk : ¬ (jsJoin "|" (sortStringsJs ex.componentsUsed) = key) := by
            intro hh
            rw [hh, hlm] at hlk
            exact Option.noConfusion hlk
          constructor
          · rw [← hl3]
            exact hj
          · rw [← hl3, hcount key, if_neg hk, hc]
            omega
        | none =>
          rw [hlm] at hl2
          by_cases hk : jsJoin "|" (sortStringsJs ex.componentsUsed) = key
          · rw [if_pos hk] at hl2
            injection hl2 with hl3
            constructor
            · rw [← hl3]
              exact hk
            · rw [← hl3, hcount key, if_pos hk]
              show 1 = countKey pre key + 1
              rw [← hk, hprezero]
          · rw [if_neg hk] at hl2
            exact Option.noConfusion hl2
      · intro key hc
        rw [alookup_append_single]
        by_cases hk : jsJoin "|" (sortStringsJs ex.componentsUsed) = key
        · cases hlm : alookup m key <;> simp [hk]
        · rw [hcount key, if_neg hk] at hc
          have hs := hpresent key (by omega)
          cases hlm : alookup m key with
          | some b => simp
          | none =>
            rw [hlm] at hs
            exact Bool.noConfusion hs

theorem patternsInv_fold :
    ∀ (exs pre : List ExampleCode) (m : List (String × PatternAcc)),
      PatternsInv pre m → PatternsInv (pre ++ exs) (exs.foldl addExampleToPatterns m) := by
  intro exs
  induction exs with
  | nil =>
    intro pre m h
    simpa using h
  | cons ex exs ih =>
    intro pre m h
    rw [List.foldl_cons]
    have h2 := ih (pre ++ [ex]) (addExampleToPatterns m ex) (patternsInv_step ex h)
    rwa [List.append_assoc, List.singleton_append] at h2

theorem patternsInv_main (examples : List ExampleCode) :
    PatternsInv examples (examples.foldl addExampleToPatterns []) := by
  have h := patternsInv_fold examples [] []
    ⟨List.nodup_nil, fun key acc hl => Option.noConfusion hl,
     fun key hc => by simp [countKey] at hc⟩
  simpa using h

theorem mem_insertDescPattern {p q : ComponentPattern} {l : List ComponentPattern} :
    q ∈ insertDescPattern p l ↔ q = p ∨ q ∈ l := by
  induction l with
  | nil => simp [insertDescPattern]
  | cons x xs ih =>
    unfold insertDescPattern
    by_cases h : p.frequency > x.frequency
    · simp [h]
    · rw [if_neg h]
      simp only [List.mem_cons, ih]
      constructor
      · rintro (rfl | hq)
        · exact Or.inr (Or.inl rfl)
        · rcases hq with rfl | hq
          · exact Or.inl rfl
          · exact Or.inr (Or.inr hq)
      · rintro (rfl | rfl | hq)
        · exact Or.inr (Or.inl rfl)
        · exact Or.inl rfl
        · exact Or.inr (Or.inr hq)

theorem mem_foldl_insertDescPattern {l acc : List ComponentPattern} {q : ComponentPattern} :
    q ∈ l.foldl (fun a p => insertDescPattern p a) acc ↔ q ∈ acc ∨ q ∈ l := by
  induction l generalizing acc with
  | nil => simp
  | cons x xs ih =>
    rw [List.foldl_cons, ih, mem_insertDescPattern]
    simp only [List.mem_cons]
    constructor
    · rintro ((rfl | hq) | hq)
      · exact Or.inr (Or.inl rfl)
      · exact Or.inl hq
      · exact Or.inr (Or.inr hq)
    · rintro (hq | rfl | hq)
      · exact Or.inl (Or.inr hq)
      · exact Or.inl (Or.inl rfl)
      · exact Or.inr hq

theorem mem_sortPatternsDesc {l : List ComponentPattern} {q : ComponentPattern} :
    q ∈ sortPatternsDesc l ↔ q ∈ l := by
  unfold sortPatternsDesc
  rw [mem_foldl_insertDescPattern]
  simp

theorem pairwise_insertDescPattern {p : ComponentPattern} {l : List ComponentPattern}
    (h : List.Pairwise (fun a b => b.frequency ≤ a.frequency) l) :
    List.Pairwise (fun a b => b.frequency ≤ a.frequency) (insertDescPattern p l) := by
  induction l with
  | nil => simp [insertDescPattern]
  | cons x xs ih =>
    unfold insertDescPattern
    by_cases hgt : p.frequency > x.frequency
    · rw [if_pos hgt, List.pairwise_cons]
      refine ⟨?_, h⟩
      intro b hb
      rcases List.mem_cons.mp hb with rfl | hb2
      · exact le_of_lt hgt
      · exact le_trans ((List.pairwise_cons.mp h).1 b hb2) (le_of_lt hgt)
    · rw [if_neg hgt]
      rw [List.pairwise_cons] at h
      rw [List.pairwise_cons]
      refine ⟨?_, ih h.2⟩
      intro b hb
      rcases mem_insertDescPattern.mp hb with rfl | hb2
      · exact le_of_not_lt hgt
      · exact h.1 b hb2

theorem pairwise_sortPatternsDesc (l : List ComponentPattern) :
    List.Pairwise (fun a b => b.frequency ≤ a.frequency) (sortPatternsDesc l) := by
  unfold sortPatternsDesc
  suffices h : ∀ acc, List.Pairwise (fun a b => b.frequency ≤ a.frequency) acc →
      List.Pairwise (fun a b => b.frequency ≤ a.frequency)
        (l.foldl (fun a p => insertDescPattern p a) acc) by
    exact h [] List.Pairwise.nil
  induction l with
  | nil =>
    intro acc hacc
    exact hacc
  | cons x xs ih =>
    intro acc hacc
    rw [List.foldl_cons]
    exact ih _ (pairwise_insertDescPattern hacc)

/-- C4 (amended): the composition mining groups the examples by the
bar-join of their sorted componentsUsed list (duplicates retained),
considering only examples with at least two entries; every returned
pattern's frequency is its group's example count over the total example
count and its group was kept by the two-or-ten-percent rule; every kept
group is returned; the result is sorted by descending frequency; and the
two-example A-B scenario yields exactly one pattern named A+B with
frequency one. -/
theorem C4_typical_compositions (examples : List ExampleCode) :
    List.Pairwise (fun a b => b.frequency ≤ a.frequency)
      (extractTypicalCompositions examples) ∧
    (∀ p ∈ extractTypicalCompositions examples,
       (2 ≤ countKey examples (jsJoin "|" p.components) ∨
         mkRat 1 10 <
           mkRat (Int.ofNat (countKey examples (jsJoin "|" p.components)))
             (if examples.length = 0 then 1 else examples.length)) ∧
       p.frequency =
         mkRat (Int.ofNat (countKey examples (jsJoin "|" p.components)))
           (if examples.length = 0 then 1 else examples.length) ∧
       p.name = barToPlus (jsJoin "|" p.components)) ∧
    (∀ key : String, 1 ≤ countKey examples key →
       (2 ≤ countKey examples key ∨
         mkRat 1 10 <
           mkRat (Int.ofNat (countKey examples key))
             (if examples.length = 0 then 1 else examples.length)) →
       ∃ p ∈ extractTypicalCompositions examples,
         p.name = barToPlus key ∧
         p.frequency =
           mkRat (Int.ofNat (countKey examples key))
             (if examples.length = 0 then 1 else examples.length)) ∧
    extractTypicalCompositions c4Scenario =
      [{ name := "A+B", components := ["A", "B"], frequency := 1, category := "setup" }] := by
  obtain ⟨hnodup, hentries, hpresent⟩ := patternsInv_main examples
  refine ⟨?_, ?_, ?_, by decide⟩
  · simp only [extractTypicalCompositions]
    exact pairwise_sortPatternsDesc _
  · intro p hp
    simp only [extractTypicalCompositions] at hp
    rw [mem_sortPatternsDesc] at hp
    rcases List.mem_map.mp hp with ⟨e, hef, rfl⟩
    rcases List.mem_filter.mp hef with ⟨hem, hcond⟩
    have hlk := mem_alookup hnodup hem
    obtain ⟨hj, hc⟩ := hentries e.1 e.2 hlk
    dsimp only
    rw [hj, ← hc]
    refine ⟨?_, rfl, rfl⟩
    simp only [Bool.or_eq_true, decide_eq_true_eq] at hcond
    exact hcond
  · intro key hc1 hkeep
    have hsome := hpresent key hc1
    cases hlk : alookup (examples.foldl addExampleToPatterns []) key with
    | none =>
      rw [hlk] at hsome
      exact Bool.noConfusion hsome
    | some acc =>
      obtain ⟨hj, hc⟩ := hentries key acc hlk
      have hmem := alookup_mem hlk
      refine ⟨{ name := barToPlus key
                components := acc.components
                frequency := mkRat (Int.ofNat acc.count)
                  (if examples.length = 0 then 1 else examples.length)
                category := acc.category }, ?_, rfl, ?_⟩
      · simp only [extractTypicalCompositions]
        rw [mem_sortPatternsDesc]
        refine List.mem_map.mpr ⟨(key, acc), List.mem_filter.mpr ⟨hmem, ?_⟩, rfl⟩
        rw [Bool.or_eq_true]
        rcases hkeep with hk | hk
        · refine Or.inl ?_
          rw [← hc] at hk
          exact decide_eq_true hk
        · refine Or.inr ?_
          rw [← hc] at hk
          exact decide_eq_true hk
      · dsimp only
        rw [hc]

/-- Witness for the amended C4: the kept group of the two-example A-B
scenario is returned with its name and frequency. -/
theorem C4_typical_compositions_witness :
    ∃ p ∈ extractTypicalCompositions c4Scenario,
      p.name = barToPlus "A|B" ∧
      p.frequency =
        mkRat (Int.ofNat (countKey c4Scenario "A|B"))
          (if c4Scenario.length = 0 then 1 else c4Scenario.length) :=
  (C4_typical_compositions c4Scenario).2.2.1 "A|B" (by decide) (by decide)

/-- C4 counterexample: an entry file whose import statement lists B twice
is grouped by the non-deduplicated list, so the code returns a pattern for
the two-element list B, B while the claim's deduplicated grouping (one
distinct name, below the two-component threshold) returns nothing. -/
theorem C4_counterexample :
    (mkExampleFromCode doubleBCode).componentsUsed = ["B", "B"] ∧
    extractTypicalCompositions
        [mkExampleFromCode doubleBCode, mkExampleFromCode doubleBCode] =
      [{ name := "B+B", components := ["B", "B"], frequency := mkRat 2 2,
         category := "setup" }] ∧
    extractTypicalCompositionsClaimed
        [mkExampleFromCode doubleBCode, mkExampleFromCode doubleBCode] = [] := by
  decide

end IwsdkMcp
